import Mathlib

/-!
# Verification of the nonbib/metrics conversion pipeline (adsdata/process.py)

This file gives a shallow embedding of the per-bibcode conversion pipeline:

* `_convert_data_link`  — the per-value data-link row builder;
* `_merge_data_links`   — deduplication of rows sharing a (link_type, link_sub_type) key;
* `_add_data_summary`, `_add_refereed_property`, `_add_article_property`,
  `_add_citation_count_norm_field` — the derived-field steps;
* `_convert`            — the attribute converter (the per-filetype loop plus the
  derived steps, in source order);
* `_compute_metrics`    — the citation-metrics computation;
* `process_bibcodes`    — the batch driver with per-bibcode failure isolation.

Modelling conventions:

* Raw attribute values are a tagged variant `Val` (bool, int, string, list, dict),
  matching the dynamic shapes the code inspects.  Dictionaries are insertion-ordered
  association lists, as in the runtime.
* Statements that can raise at runtime are modelled in the `Option` monad: `none`
  plays the role of an exception escaping the current bibcode.  Payloads that the
  code would carry along but that the protobuf boundary rejects right after
  conversion (for example a non-integer item_count, or a url field holding a
  number) are also modelled as failures, since in either case the record for that
  bibcode is never dispatched.
* Floating-point arithmetic is modelled over the rationals.
* Wall-clock data (the modtime field) is omitted; the current year is a parameter.
* The static field-definition table (data_files) and the snapshot of the global
  cache are passed as explicit parameters; theorems quantify over them.
-/

/-- A dynamically shaped raw value: the shapes the conversion code inspects with
type tests (bool, numbers, strings, lists, dicts). -/
inductive Val where
  | bool (b : Bool)
  | int (n : Int)
  | str (s : String)
  | list (xs : List Val)
  | dict (kvs : List (String × Val))

mutual

/-- Structural equality of values, modelling the equality test the code uses in
`value != file_properties[...]` comparisons.  (Cross-type numeric coincidences
such as a bool comparing equal to an int are not modelled.) -/
def Val.beq : Val → Val → Bool
  | .bool a, .bool b => a == b
  | .int a, .int b => a == b
  | .str a, .str b => a == b
  | .list xs, .list ys => Val.beqList xs ys
  | .dict xs, .dict ys => Val.beqDict xs ys
  | _, _ => false

/-- Elementwise equality of value lists. -/
def Val.beqList : List Val → List Val → Bool
  | [], [] => true
  | x :: xs, y :: ys => Val.beq x y && Val.beqList xs ys
  | _, _ => false

/-- Entrywise equality of value dicts (insertion order sensitive). -/
def Val.beqDict : List (String × Val) → List (String × Val) → Bool
  | [], [] => true
  | (k, v) :: xs, (l, w) :: ys => k == l && Val.beq v w && Val.beqDict xs ys
  | _, _ => false

end

/-- Truthiness of a value, as used by `if x:` style tests. -/
def Val.truthy : Val → Bool
  | .bool b => b
  | .int n => n != 0
  | .str s => s != ""
  | .list xs => !xs.isEmpty
  | .dict kvs => !kvs.isEmpty

/-- Length of a value (`len(...)`); fails on values without a length. -/
def pyLen : Val → Option Nat
  | .str s => some s.length
  | .list xs => some xs.length
  | .dict kvs => some kvs.length
  | _ => none

/-- First-match association-list lookup: the dict access `d[k]` / `d.get(k)`. -/
def dlookup {α : Type} : List (String × α) → String → Option α
  | [], _ => none
  | (k, v) :: rest, key => if k = key then some v else dlookup rest key

/-- Lookup in a raw-value dict. -/
def dget (kvs : List (String × Val)) (k : String) : Option Val :=
  dlookup kvs k

/-- The optional extra_values block of a field definition: link_type,
link_sub_type and an associated property list, each optional. -/
structure ExtraValues where
  link_type : Option String
  link_sub_type : Option String
  property : Option (List String)

/-- One entry of the static data_files table: a default value, an optional
extra_values block and the optional copy_default flag. -/
structure FieldDefinition where
  default_value : Val
  extra_values : Option ExtraValues
  copy_default : Bool

/-- Whether a default value is boolean-typed (`type(...) is bool`). -/
def isBoolVal : Val → Bool
  | .bool _ => true
  | _ => false

/-- One data-link row under construction.  The five fields the builder may set;
a field the code leaves unset is `none` (a dict without that key). -/
structure DataLinkRow where
  link_type : String
  link_sub_type : Option String
  url : Option (List String)
  title : Option (List String)
  item_count : Option Int

/-- The url/title coercion of the builder: absent becomes a one-element list
holding the empty string, a bare string becomes a one-element list, a list of
strings is kept.  Other payloads would be rejected at the protobuf boundary and
are modelled as failures. -/
def coerceStrList : Option Val → Option (List String)
  | none => some [""]
  | some (.str s) => some [s]
  | some (.list xs) => xs.mapM (fun v => match v with | .str s => some s | _ => none)
  | some _ => none

/-- Substring scan used for the membership test `needle in haystack` on
strings. -/
def containsSub (pat : List Char) : List Char → Bool
  | [] => pat.isEmpty
  | c :: rest => pat.isPrefixOf (c :: rest) || containsSub pat rest

/-- Substring test `needle in haystack` on strings. -/
def strContains (haystack needle : String) : Bool :=
  containsSub needle.data haystack.data

/-- The per-value data-link row builder, `_convert_data_link`.

The source computes a `link_sub_type_suffix` from `subparts.item_count` guarded
by `value is dict`; that is an identity test against the type object `dict`,
which no data value satisfies, so the suffix is always the empty string at
runtime (the sibling branches correctly test `type(value) is dict`). -/
def _convert_data_link (data_files : List (String × FieldDefinition))
    (filetype : String) (value : Val) : Option DataLinkRow := do
  let file_properties ← dlookup data_files filetype
  let ev ← file_properties.extra_values
  let link_type ← ev.link_type
  let link_sub_type_suffix : String := ""
  -- resolution of link_sub_type: value is True / own field / definition field
  let sub? : Option String ←
    (match value with
     | .bool true =>
       (match ev.link_sub_type with
        | some s => some (some (s ++ link_sub_type_suffix))
        | none => none)                     -- KeyError on extra_values
     | .bool false => none                  -- membership test on a bool raises
     | .int _ => none                       -- membership test on an int raises
     | .dict kvs =>
       (match dget kvs "link_sub_type" with
        | some (.str s) => some (some (s ++ link_sub_type_suffix))
        | some _ => none                    -- concatenation with a non-string raises
        | none =>
          (match ev.link_sub_type with
           | some s => some (some (s ++ link_sub_type_suffix))
           | none => some none))            -- no link_sub_type key is set
     | .str s =>
       if strContains s "link_sub_type" then none  -- indexing a str with a str raises
       else
         (match ev.link_sub_type with
          | some t => some (some (t ++ link_sub_type_suffix))
          | none => some none)
     | .list xs =>
       if xs.any (fun v => Val.beq v (.str "link_sub_type")) then none  -- list[str] raises
       else
         (match ev.link_sub_type with
          | some t => some (some (t ++ link_sub_type_suffix))
          | none => some none))
  -- the url/title/item_count block, by the runtime type of the value
  let fields ← (match value with
    | .bool _ => some (some [""], some [""], some (0 : Int))
    | .dict kvs => do
      let u ← coerceStrList (dget kvs "url")
      let t ← coerceStrList (dget kvs "title")
      let ic ← (match dget kvs "item_count" with
        | none => some (0 : Int)
        | some (.int n) => some n
        | some _ => none)                   -- non-integer counts: protobuf boundary
      pure (some u, some t, some ic)
    | _ => some (none, none, none))         -- unexpected type: error logged, fields unset
  pure { link_type := link_type, link_sub_type := sub?,
         url := fields.1, title := fields.2.1, item_count := fields.2.2 }

/-- A value stored in the record under construction: either a copied raw value,
a set of strings being accumulated (property / esource), a sorted string list
(property / esource / data after the sort), the data-link row list, an integer
(total_link_counts) or a rational number (citation_count_norm). -/
inductive RVal where
  | raw (v : Val)
  | pset (s : List String)
  | slist (xs : List String)
  | rows (rs : List DataLinkRow)
  | int (n : Int)
  | num (q : ℚ)

/-- The record under construction: an insertion-ordered dict. -/
abbrev RD := List (String × RVal)

/-- Dict assignment `d[k] = v`: replace in place, else append. -/
def rset : RD → String → RVal → RD
  | [], k, v => [(k, v)]
  | (k1, v1) :: rest, k, v =>
    if k1 = k then (k, v) :: rest else (k1, v1) :: rset rest k v

/-- Dict lookup on the record under construction. -/
def rget (rv : RD) (k : String) : Option RVal :=
  dlookup rv k

/-- `d.pop(k, None)`: drop the key if present. -/
def rpop (rv : RD) (k : String) : RD :=
  rv.filter (fun p => decide (p.1 ≠ k))

/-- Set insertion (`s.add(x)`), keeping first-insertion order. -/
def insertSet (s : List String) (x : String) : List String :=
  if x ∈ s then s else s ++ [x]

/-- `return_value[k].add(x)` on an accumulating string set; fails when the slot
does not hold a set (an AttributeError escaping the bibcode). -/
def psetAdd (rv : RD) (k : String) (x : String) : Option RD :=
  match rget rv k with
  | some (.pset s) => some (rset rv k (.pset (insertSet s x)))
  | _ => none

/-- `return_value[k].update(xs)`. -/
def psetUpdate (rv : RD) (k : String) (xs : List String) : Option RD :=
  xs.foldlM (fun rv x => psetAdd rv k x) rv

/-- `return_value['data_links_rows'].append(d)`. -/
def appendRow (rv : RD) (d : DataLinkRow) : Option RD :=
  match rget rv "data_links_rows" with
  | some (.rows rs) => some (rset rv "data_links_rows" (.rows (rs ++ [d])))
  | _ => none

/-- Code-point comparison of characters. -/
def charLtB (a b : Char) : Bool :=
  a.toNat < b.toNat

/-- Lexicographic comparison of character lists by code points, the string
order Python sorts by. -/
def lexLeB : List Char → List Char → Bool
  | [], _ => true
  | _ :: _, [] => false
  | a :: as1, b :: bs1 =>
    if charLtB a b then true
    else if charLtB b a then false
    else lexLeB as1 bs1

/-- String comparison by code points. -/
def strLeB (a b : String) : Bool :=
  lexLeB a.data b.data

/-- Sorted insertion with respect to `strLeB`. -/
def pyOrderedInsert (x : String) : List String → List String
  | [] => [x]
  | y :: ys => if strLeB x y then x :: y :: ys else y :: pyOrderedInsert x ys

/-- `sorted(...)` on strings: ascending lexicographic by code points
(insertion sort; the output agrees with any stable sort since the order is
total and antisymmetric). -/
def sortStrings : List String → List String
  | [] => []
  | x :: xs => pyOrderedInsert x (sortStrings xs)

/-- `_add_refereed_property`: add NOT REFEREED when REFEREED is absent. -/
def _add_refereed_property (rv : RD) : Option RD :=
  match rget rv "property" with
  | some (.pset s) =>
    if "REFEREED" ∈ s then some rv
    else some (rset rv "property" (.pset (insertSet s "NOT REFEREED")))
  | _ => none

/-- The nonarticle flag of the raw record: absent counts as false, a dict is
unwrapped one layer (failing when the inner key is missing), then truthiness. -/
def pyNonarticle (passed : List (String × Val)) : Option Bool := do
  let x := (dget passed "nonarticle").getD (.bool false)
  let x ← (match x with | .dict kvs => dget kvs "nonarticle" | v => some v)
  pure x.truthy

/-- `_add_article_property`: add NONARTICLE when the flag is truthy, ARTICLE
otherwise. -/
def _add_article_property (rv : RD) (d : List (String × Val)) : Option RD := do
  let flag ← pyNonarticle d
  psetAdd rv "property" (if flag then "NONARTICLE" else "ARTICLE")

/-- One iteration of the `_add_data_summary` loop: a DATA-typed row
contributes one SUBTYPE:COUNT entry and its count (its link_sub_type must be
present); other rows contribute nothing. -/
def summaryStep (acc : List String × Int) (r : DataLinkRow) :
    Option (List String × Int) :=
  if r.link_type = "DATA" then do
    let sub ← r.link_sub_type
    pure (acc.1 ++ [sub ++ ":" ++ toString (r.item_count.getD 0)],
          acc.2 + r.item_count.getD 0)
  else pure acc

/-- The body of `_add_data_summary`: walk the rows, collecting one
SUBTYPE:COUNT entry and one count per DATA-typed row, in row order. -/
def summaryOf (rs : List DataLinkRow) : Option (List String × Int) :=
  rs.foldlM summaryStep ([], 0)

/-- `_add_data_summary`: store the sorted entries as data and the count sum as
total_link_counts.  (In the source this runs before the merge step.) -/
def _add_data_summary (rv : RD) : Option RD := do
  let rs ← (match rget rv "data_links_rows" with
    | none => some []
    | some (.rows rs) => some rs
    | some _ => none)
  let st ← summaryOf rs
  pure (rset (rset rv "data" (.slist (sortStrings st.1))) "total_link_counts" (.int st.2))

/-- The grouping key of the merge step: the formatted string
link_type ++ ":" ++ link_sub_type; fails when the row has no link_sub_type. -/
def rowKey (r : DataLinkRow) : Option String :=
  r.link_sub_type.map (fun s => r.link_type ++ ":" ++ s)

/-- First-occurrence deduplication with an accumulator of already seen keys. -/
def firstDedupAux (seen : List String) : List String → List String
  | [] => []
  | x :: xs =>
    if x ∈ seen then firstDedupAux seen xs
    else x :: firstDedupAux (seen ++ [x]) xs

/-- First-occurrence deduplication, the key order of the grouping dict. -/
def firstDedup (l : List String) : List String :=
  firstDedupAux [] l

/-- Fold a group of matching rows into its first row: concatenate url and title
sequences in encounter order and sum item_count, a later row missing its
item_count counting as 1.  Fails when the first row is missing url, title or
item_count, or a later row is missing url or title. -/
def mergeGroup (first : DataLinkRow) : List DataLinkRow → Option DataLinkRow
  | [] => some first
  | m :: ms => do
    let u ← first.url
    let mu ← m.url
    let t ← first.title
    let mt ← m.title
    let c ← first.item_count
    mergeGroup { first with
                   url := some (u ++ mu)
                   title := some (t ++ mt)
                   item_count := some (c + m.item_count.getD 1) } ms

/-- One group of the rebuild: the rows matching a key, in encounter order;
a singleton group passes through, a larger group is folded. -/
def mergeOneGroup (datalinks : List DataLinkRow) (k : String) : Option DataLinkRow :=
  match datalinks.filter (fun d => decide (rowKey d = some k)) with
  | [] => none
  | [m] => some m
  | first :: rest => mergeGroup first rest

/-- Rebuild the row list, one row per distinct key in first-occurrence
order. -/
def mergeGroups (datalinks : List DataLinkRow) (ks : List String) :
    Option (List DataLinkRow) :=
  ks.mapM (mergeOneGroup datalinks)

/-- `_merge_data_links`: group rows by key; when every key is distinct return
the list unchanged, otherwise rebuild with each group merged. -/
def _merge_data_links (datalinks : List DataLinkRow) : Option (List DataLinkRow) := do
  let keys ← datalinks.mapM rowKey
  let distinct := firstDedup keys
  if distinct.length = datalinks.length then
    pure datalinks
  else
    mergeGroups datalinks distinct

/-- The merge assignment
`return_value['data_links_rows'] = self._merge_data_links(...)`. -/
def mergeStep (rv : RD) : Option RD := do
  let rs ← (match rget rv "data_links_rows" with
    | some (.rows rs) => some rs
    | _ => none)
  let merged ← _merge_data_links rs
  pure (rset rv "data_links_rows" (.rows merged))

/-- `_add_citation_count_norm_field`: citation_count (0 when absent) divided by
the author count clamped to at least 1.  A non-numeric citation_count would
raise (TypeError) and is a failure. -/
def _add_citation_count_norm_field (rv : RD) (original : List (String × Val)) :
    Option RD := do
  let author_count ← (match dget original "author" with
    | none => some 0
    | some v => pyLen v)
  let cc ← (match rget rv "citation_count" with
    | none => some (0 : Int)
    | some (.raw (.int n)) => some n
    | some _ => none)
  pure (rset rv "citation_count_norm" (.num ((cc : ℚ) / ((max author_count 1 : ℕ) : ℚ))))

/-- Sorting an accumulated set into its output list
(`return_value[k] = sorted(return_value[k])`). -/
def sortKey (rv : RD) (k : String) : Option RD :=
  match rget rv k with
  | some (.pset s) => some (rset rv k (.slist (sortStrings s)))
  | _ => none

/-- The one-layer flattening access `value[filetype]` used for fields with a
boolean-typed default; fails (TypeError or KeyError) on other shapes. -/
def flattenBool (value0 : Val) (filetype : String) : Option Val :=
  match value0 with
  | .dict kvs => dget kvs filetype
  | _ => none

/-- The data-link routing of the conversion loop (lines appending rows): a
flag or map value produces one row, a list produces one row per element, an
unexpected type only logs an error and appends nothing. -/
def routeDataLinks (data_files : List (String × FieldDefinition))
    (filetype : String) (rv : RD) (value : Val) : Option RD :=
  match value with
  | .bool _ => do
    let d ← _convert_data_link data_files filetype value
    appendRow rv d
  | .dict _ => do
    let d ← _convert_data_link data_files filetype value
    appendRow rv d
  | .list vs =>
    vs.foldlM (fun rv v => do
      let d ← _convert_data_link data_files filetype v
      appendRow rv d) rv
  | _ => pure rv

/-- The elif chain of the conversion loop over the (flattened) value: route
data links and accumulate esource/property tags, or only accumulate the
extra_values properties, or copy the original raw value, in source order.
When the value equals the default, the copy condition reduces to
copy_default. -/
def convertBranch (data_files : List (String × FieldDefinition))
    (passed : List (String × Val)) (filetype : String) (fp : FieldDefinition)
    (rv : RD) (value : Val) : Option RD :=
  let vneq := !(Val.beq value fp.default_value)
  match fp.extra_values with
  | some ev =>
    if ev.link_type.isSome && vneq then do
      let rv ← routeDataLinks data_files filetype rv value
      let rv ← (if ev.link_type = some "ESOURCE" then do
          let lst ← ev.link_sub_type
          psetAdd rv "esource" lst
        else pure rv)
      let lt ← ev.link_type
      let rv ← psetAdd rv "property" lt
      psetUpdate rv "property" (ev.property.getD [])
    else if vneq then
      (match ev.property with
       | some ps => psetUpdate rv "property" ps
       | none => pure rv)
    else if fp.copy_default then do
      let orig ← dget passed filetype
      pure (rset rv filetype (.raw orig))
    else pure rv
  | none =>
    if vneq || fp.copy_default then do
      let orig ← dget passed filetype
      pure (rset rv filetype (.raw orig))
    else pure rv

/-- The relevance lift: every inner key/value of the relevance mapping is
written to the top level of the record; iterating a non-mapping raises. -/
def relevanceLift (passed : List (String × Val)) (filetype : String) (rv : RD) :
    Option RD := do
  let v ← dget passed filetype
  match v with
  | .dict kvs => pure (kvs.foldl (fun rv kv => rset rv kv.1 (.raw kv.2)) rv)
  | _ => none

/-- One iteration of the conversion loop, for one (filetype, value) item of the
raw mapping.  Follows the source line by line; the test
`value is dict and dict and ...` on the property block is an identity test
against the type object `dict`, which no data value satisfies, so that branch
never runs. -/
def convertStep (data_files : List (String × FieldDefinition))
    (passed : List (String × Val)) (rv : RD) (filetype : String) (value0 : Val) :
    Option RD := do
  let file_properties ← dlookup data_files filetype
  let rv ← (if filetype = "canonical" then do
      let c ← dget passed "canonical"
      pure (rset rv "bibcode" (.raw c))
    else pure rv)
  let fv ← (if isBoolVal file_properties.default_value then do
      let inner ← flattenBool value0 filetype
      pure (rset rv filetype (.raw inner), inner)
    else pure (rv, value0))
  let rv := fv.1
  let value := fv.2
  let rv ← convertBranch data_files passed filetype file_properties rv value
  let rv ← (if filetype = "relevance" then relevanceLift passed filetype rv
    else pure rv)
  pure rv

/-- The per-filetype loop of `_convert`, in the iteration order of the raw
mapping. -/
def convertLoop (data_files : List (String × FieldDefinition))
    (passed : List (String × Val)) : RD → List (String × Val) → Option RD
  | rv, [] => some rv
  | rv, (ft, v) :: rest => do
    let rv ← convertStep data_files passed rv ft v
    convertLoop data_files passed rv rest

/-- The keys deleted at the end of `_convert`. -/
def not_needed : List String :=
  ["author", "canonical", "citation", "download", "item_count", "nonarticle",
   "ocrabstract", "private", "pub_openaccess", "reads", "refereed", "relevance", "toc"]

/-- `_convert`: the conversion loop followed by the derived steps, in source
order (refereed and article classification, sorting of property and esource,
data summary, merge, citation_count_norm, deletion of intermediate keys). -/
def _convert (data_files : List (String × FieldDefinition))
    (passed : List (String × Val)) : Option RD := do
  let rv : RD := [("data_links_rows", .rows []), ("property", .pset []),
                  ("esource", .pset [])]
  let rv ← convertLoop data_files passed rv passed
  let rv ← _add_refereed_property rv
  let rv ← _add_article_property rv passed
  let rv ← sortKey rv "property"
  let rv ← sortKey rv "esource"
  let rv ← _add_data_summary rv
  let rv ← mergeStep rv
  let rv ← _add_citation_count_norm_field rv passed
  pure (not_needed.foldl rpop rv)

/-- The read-only snapshot of the global cache: the refereed membership list
and the per-bibcode reference and citation dicts. -/
structure Snapshot where
  refereed : List String
  reference : List (String × List String)
  citation : List (String × List String)

/-- One per-citation detail record of rn_citation_data. -/
structure RnDatum where
  bibcode : String
  ref_norm : ℚ
  auth_norm : ℚ
  pubyear : Int
  cityear : Int

/-- The metrics record.  modtime (a wall-clock timestamp) is not modelled. -/
structure MetricsRecord where
  bibcode : String
  an_citations : ℚ
  an_refereed_citations : ℚ
  author_num : Nat
  citation_num : Nat
  citations : List String
  downloads : Val
  reads : Val
  refereed : Bool
  refereed_citations : List String
  refereed_citation_num : Nat
  reference_num : Nat
  rn_citations : ℚ
  rn_citation_data : List RnDatum

/-- Value of a decimal digit character. -/
def digitVal (c : Char) : Option Nat :=
  if 48 ≤ c.toNat && c.toNat ≤ 57 then some (c.toNat - 48) else none

/-- Accumulate decimal digits into a natural number, failing on a non-digit. -/
def digitsToNat : List Char → Nat → Option Nat
  | [], acc => some acc
  | c :: rest, acc => do
    let d ← digitVal c
    digitsToNat rest (acc * 10 + d)

/-- `int(s)`: parse a decimal integer with an optional sign, failing on
malformed input.  (Surrounding whitespace, accepted by the runtime, is not
modelled; bibcode year prefixes carry none.) -/
def pyInt (s : String) : Option Int :=
  match s.data with
  | [] => none
  | '-' :: rest =>
    if rest.isEmpty then none else (digitsToNat rest 0).map (fun n => -(n : Int))
  | '+' :: rest =>
    if rest.isEmpty then none else (digitsToNat rest 0).map (fun n => (n : Int))
  | l => (digitsToNat l 0).map (fun n => (n : Int))

/-- One iteration of the citation loop of `_compute_metrics`: look up the
citing bibcode's reference count, derive its normalized weight, accumulate the
weight, the detail record and — when the citing bibcode is refereed — the
refereed citation. -/
def metricsLoopStep (snapshot : Snapshot) (author_num : Nat) (pubyear : Int)
    (acc : ℚ × List RnDatum × List String) (citation_bibcode : String) :
    Option (ℚ × List RnDatum × List String) := do
  let len_citation_reference ←
    (dlookup snapshot.reference citation_bibcode).map List.length
  let ref_norm : ℚ := 1 / ((max 5 len_citation_reference : ℕ) : ℚ)
  let cityear ← pyInt (citation_bibcode.take 4)
  let datum : RnDatum :=
    { bibcode := citation_bibcode, ref_norm := ref_norm,
      auth_norm := 1 / (author_num : ℚ), pubyear := pubyear, cityear := cityear }
  pure (acc.1 + ref_norm, acc.2.1 ++ [datum],
        if snapshot.refereed.contains citation_bibcode
        then acc.2.2 ++ [citation_bibcode] else acc.2.2)

/-- `_compute_metrics`: the citation-metrics computation over the raw record
and the snapshot.  The publication year is parsed once; the source parses it
inside the citation loop and again for resource_age, with the same result and
the same failure cases.  todayYear stands for `datetime.today().year`. -/
def _compute_metrics (snapshot : Snapshot) (todayYear : Int)
    (d : List (String × Val)) : Option MetricsRecord := do
  let bibcode ← (match dget d "canonical" with
    | some (.str b) => some b
    | _ => none)                             -- slicing needs a string
  let author_num : Nat ← (match dget d "author" with
    | some v => if v.truthy then do
        let n ← pyLen v
        pure (max n 1)
      else pure 1
    | none => pure 1)
  let citations ← dlookup snapshot.citation bibcode        -- KeyError when absent
  let citation_num := citations.length                     -- len of the empty list is 0
  let reference_num ← (dlookup snapshot.reference bibcode).map List.length
  let pubyear ← pyInt (bibcode.take 4)
  let acc ← citations.foldlM (metricsLoopStep snapshot author_num pubyear)
    ((0 : ℚ), ([] : List RnDatum), ([] : List String))
  let refereed_citation_num := acc.2.2.length
  let resource_age : ℚ := max 1 ((todayYear : ℚ) - (pubyear : ℚ) + 1)
  let reads ← dget d "reads"
  let downloads ← dget d "download"
  pure { bibcode := bibcode,
         an_citations := (citation_num : ℚ) / resource_age,
         an_refereed_citations := (refereed_citation_num : ℚ) / resource_age,
         author_num := author_num,
         citation_num := citation_num,
         citations := citations,
         downloads := downloads,
         reads := reads,
         refereed := snapshot.refereed.contains bibcode,
         refereed_citations := acc.2.2,
         refereed_citation_num := refereed_citation_num,
         reference_num := reference_num,
         rn_citations := acc.1,
         rn_citation_data := acc.2.1 }

/-- A message handed to the output sinks: one nonbib batch or one metrics
batch. -/
inductive SinkMsg where
  | nonbib (batch : List RD)
  | metrics (batch : List MetricsRecord)

/-- The loop body of `process_bibcodes`: read (modelled by the `read`
parameter), convert, append the nonbib record, then optionally compute and
append the metrics record; an exception at any point abandons the rest of
that bibcode only, keeping whatever was already appended. -/
def processOne (data_files : List (String × FieldDefinition)) (snapshot : Snapshot)
    (todayYear : Int) (read : String → List (String × Val)) (compute_metrics : Bool)
    (st : List RD × List MetricsRecord) (bibcode : String) :
    List RD × List MetricsRecord :=
  match _convert data_files (read bibcode) with
  | none => st
  | some converted =>
    let st := (st.1 ++ [converted], st.2)
    if compute_metrics then
      match _compute_metrics snapshot todayYear (read bibcode) with
      | none => st
      | some met => (st.1, st.2 ++ [met])
    else st

/-- The whole batch: fold `processOne` over the bibcodes, then dispatch the
two batch messages. -/
def process_bibcodes (data_files : List (String × FieldDefinition))
    (snapshot : Snapshot) (todayYear : Int) (read : String → List (String × Val))
    (compute_metrics : Bool) (bibcodes : List String) : List SinkMsg :=
  let st := bibcodes.foldl
    (processOne data_files snapshot todayYear read compute_metrics)
    (([] : List RD), ([] : List MetricsRecord))
  [.nonbib st.1, .metrics st.2]

/-! ### Concrete fixtures used by the counterexamples and witnesses below -/

/-- A one-field table whose only field has a boolean default. -/
def dfC3a : List (String × FieldDefinition) :=
  [("flagfield", ⟨.bool false, none, false⟩)]

/-- A raw mapping whose flag field carries its default (false), one layer
wrapped as the reader delivers it. -/
def passedC3a : List (String × Val) :=
  [("flagfield", .dict [("flagfield", .bool false)])]

/-- A one-field table whose only field has extra_values carrying a property
list but no link_type. -/
def dfC3b : List (String × FieldDefinition) :=
  [("assoc", ⟨.list [], some ⟨none, none, some ["PX"]⟩, false⟩)]

/-- A raw mapping where that field differs from its default. -/
def passedC3b : List (String × Val) :=
  [("assoc", .list [.str "y"])]

/-- A plain pass-through field table. -/
def dfC3w : List (String × FieldDefinition) :=
  [("bibgroup", ⟨.list [], none, false⟩)]

/-- A raw mapping with a non-default pass-through value. -/
def passedC3w : List (String × Val) :=
  [("bibgroup", .list [.str "CfA"])]

/-- A one-field table with a DATA-typed data-link field and no definition
link_sub_type. -/
def dfC2x : List (String × FieldDefinition) :=
  [("figs", ⟨.list [], some ⟨some "DATA", none, none⟩, false⟩)]

/-- A raw mapping with two data-link values sharing the link_sub_type SIMBAD. -/
def passedC2x : List (String × Val) :=
  [("figs", .list [.dict [("link_sub_type", .str "SIMBAD"), ("item_count", .int 1)],
                   .dict [("link_sub_type", .str "SIMBAD"), ("item_count", .int 2)]])]

/-- An ESOURCE-typed data-link field definition with link_sub_type PDF. -/
def dfC8x : List (String × FieldDefinition) :=
  [("efile", ⟨.list [], some ⟨some "ESOURCE", some "PDF", none⟩, false⟩)]

/-- A DATA-typed data-link field definition with link_sub_type NED. -/
def dfC9x : List (String × FieldDefinition) :=
  [("figs9", ⟨.list [], some ⟨some "DATA", some "NED", none⟩, false⟩)]

/-- A raw mapping whose data-link value explicitly carries an empty url
sequence. -/
def passedC9x : List (String × Val) :=
  [("figs9", .dict [("url", .list [])])]

/-- The snapshot of the worked metrics example: two citing bibcodes, with 3
and 10 references, the first refereed. -/
def snapC4 : Snapshot :=
  { refereed := ["2021AJ....1..1A"],
    reference := [("2020ApJ...900..100X", []),
                  ("2021AJ....1..1A", ["r1", "r2", "r3"]),
                  ("2021AJ....1..1B",
                   ["s1", "s2", "s3", "s4", "s5", "s6", "s7", "s8", "s9", "s10"])],
    citation := [("2020ApJ...900..100X", ["2021AJ....1..1A", "2021AJ....1..1B"])] }

/-- The raw record of the worked metrics example. -/
def dC4 : List (String × Val) :=
  [("canonical", .str "2020ApJ...900..100X"), ("reads", .list []),
   ("download", .list [])]

/-- Two rows sharing the key DATA:NED, the second one missing its
item_count. -/
def rowsC5 : List DataLinkRow :=
  [⟨"DATA", some "NED", some ["u1"], some ["t1"], some 2⟩,
   ⟨"DATA", some "NED", some ["u2"], some ["t2"], none⟩]

/-- A table with a citation_count source field and an author field. -/
def dfC6 : List (String × FieldDefinition) :=
  [("citation_count", ⟨.int 0, none, false⟩), ("author", ⟨.list [], none, false⟩)]

/-- citation_count 10 with five authors. -/
def passedC6 : List (String × Val) :=
  [("citation_count", .int 10),
   ("author", .list [.str "a", .str "b", .str "c", .str "d", .str "e"])]

/-- citation_count 10 with an empty author list. -/
def passedC6b : List (String × Val) :=
  [("citation_count", .int 10), ("author", .list [])]

/-- A table with a refereed flag field carrying the REFEREED property and a
nonarticle flag field. -/
def dfC7 : List (String × FieldDefinition) :=
  [("refereed", ⟨.bool false, some ⟨none, none, some ["REFEREED"]⟩, false⟩),
   ("nonarticle", ⟨.bool false, none, false⟩)]

/-- A refereed nonarticle record. -/
def passedC7 : List (String × Val) :=
  [("refereed", .dict [("refereed", .bool true)]),
   ("nonarticle", .dict [("nonarticle", .bool true)])]

/-- The field table of the batch-driver scenario. -/
def dfC1 : List (String × FieldDefinition) :=
  [("canonical", ⟨.str "", none, false⟩),
   ("reads", ⟨.list [], none, false⟩),
   ("download", ⟨.list [], none, false⟩)]

/-- The reader of the batch-driver scenario: the first bibcode has no reads
value, so its metrics computation raises after its nonbib record was already
appended; the second is complete. -/
def readC1 : String → List (String × Val) :=
  fun b =>
    if b = "2020AAAA" then
      [("canonical", .str "2020AAAA"), ("download", .list [])]
    else
      [("canonical", .str "2021BBBB"), ("reads", .list [.int 1]),
       ("download", .list [])]

/-- A snapshot covering both bibcodes of the scenario. -/
def snapC1 : Snapshot :=
  { refereed := [],
    reference := [("2020AAAA", []), ("2021BBBB", [])],
    citation := [("2020AAAA", []), ("2021BBBB", [])] }

/-- A reader whose records mention a filetype absent from the (empty) field
table, so every conversion fails. -/
def readC10 : String → List (String × Val) :=
  fun _ => [("zzz", .int 1)]

/-- An empty snapshot. -/
def snapC10 : Snapshot :=
  { refereed := [], reference := [], citation := [] }

/-- The nonbib batch of a dispatched message list. -/
def nonbibBatch : List SinkMsg → List RD
  | SinkMsg.nonbib nb :: _ => nb
  | _ => []

/-- The metrics batch of a dispatched message list. -/
def metricsBatch : List SinkMsg → List MetricsRecord
  | _ :: SinkMsg.metrics ms :: _ => ms
  | _ => []

/-- The dispatched output of the batch-driver scenario. -/
def outC1 : List SinkMsg :=
  process_bibcodes dfC1 snapC1 2026 readC1 true ["2020AAAA", "2021BBBB"]

/-- Url/title payload shapes whose coercion yields a non-empty sequence:
absent, a bare string, or a non-empty list. -/
def nonemptyShape : Option Val → Prop
  | none => True
  | some (.str _) => True
  | some (.list (_ :: _)) => True
  | _ => False

/-- The citation_count visible on a record: 0 when absent (non-integer
payloads make the conversion fail, so they never reach a finished record). -/
def citationCountOf (rv : RD) : Int :=
  match rget rv "citation_count" with
  | some (.raw (.int n)) => n
  | _ => 0

/-- The author count of a raw record: the length of the author value, 0 when
absent. -/
def authorCountOf (passed : List (String × Val)) : Nat :=
  match dget passed "author" with
  | some (.list xs) => xs.length
  | some (.str s) => s.length
  | some (.dict kvs) => kvs.length
  | _ => 0

/-- Ascending sortedness in the code-point string order. -/
def pySorted (l : List String) : Prop :=
  l.Pairwise (fun a b => strLeB a b = true)

/-! ## Theorems -/

theorem foldl_processOne (data_files : List (String × FieldDefinition))
    (snapshot : Snapshot) (todayYear : Int) (read : String → List (String × Val))
    (cm : Bool) (bs : List String) :
    ∀ a : List RD × List MetricsRecord,
      bs.foldl (processOne data_files snapshot todayYear read cm) a =
        (a.1 ++ bs.filterMap (fun b => _convert data_files (read b)),
         a.2 ++ (if cm then
             bs.filterMap (fun b => (_convert data_files (read b)).bind
               (fun _ => _compute_metrics snapshot todayYear (read b)))
           else [])) := by
  induction bs with
  | nil => intro a; simp
  | cons b bs ih =>
    intro a
    rw [List.foldl_cons]
    cases hc : _convert data_files (read b) with
    | none =>
      simp only [processOne, hc, ih, List.filterMap_cons, Option.none_bind]
    | some c =>
      cases cm with
      | false =>
        simp [processOne, hc, ih, List.filterMap_cons]
      | true =>
        cases hm : _compute_metrics snapshot todayYear (read b) with
        | none =>
          simp [processOne, hc, hm, ih, List.filterMap_cons]
        | some m =>
          simp [processOne, hc, hm, ih, List.filterMap_cons]

/-- C1 (amended): per-bibcode failure isolation in process_bibcodes.  The
nonbib batch holds exactly the successfully converted records, in bibcode
order; a failure while reading or converting drops that bibcode from both
batches and processing continues.  However, the nonbib record is appended
before the metrics computation runs, so a failure in the metrics step keeps
the already-appended nonbib record and drops only the metrics record. -/
theorem C1_batch_isolation (data_files : List (String × FieldDefinition))
    (snapshot : Snapshot) (todayYear : Int) (read : String → List (String × Val))
    (cm : Bool) (bs : List String) :
    process_bibcodes data_files snapshot todayYear read cm bs =
      [SinkMsg.nonbib (bs.filterMap (fun b => _convert data_files (read b))),
       SinkMsg.metrics (if cm then
           bs.filterMap (fun b => (_convert data_files (read b)).bind
             (fun _ => _compute_metrics snapshot todayYear (read b)))
         else [])] := by
  unfold process_bibcodes
  rw [foldl_processOne]
  simp

/-- C1, counterexample to the claim as stated: in the two-bibcode batch of
the scenario, the metrics computation for the first bibcode fails (its raw
record has no reads value), yet its nonbib record still appears in the
dispatched nonbib batch — the output of a bibcode with a metrics-stage
failure is not dropped entirely.  The second bibcode is processed normally. -/
theorem C1_counterexample :
    _compute_metrics snapC1 2026 (readC1 "2020AAAA") = none ∧
    (nonbibBatch outC1).length = 2 ∧
    (metricsBatch outC1).length = 1 ∧
    ((nonbibBatch outC1).head?.bind (fun r => rget r "bibcode"))
      = some (.raw (.str "2020AAAA")) ∧
    ((metricsBatch outC1).head?.map (fun m => m.bibcode)) = some "2021BBBB" :=
  ⟨rfl, rfl, rfl, rfl, rfl⟩

/-- C10: every call to process_bibcodes dispatches exactly one nonbib batch
message and exactly one metrics batch message, in that order; with
compute_metrics disabled the metrics batch is empty, and when every bibcode
of the batch fails to convert both batches are dispatched empty rather than
withheld. -/
theorem C10_always_two_dispatches (data_files : List (String × FieldDefinition))
    (snapshot : Snapshot) (todayYear : Int) (read : String → List (String × Val))
    (cm : Bool) (bs : List String) :
    ∃ nb ms,
      process_bibcodes data_files snapshot todayYear read cm bs =
        [SinkMsg.nonbib nb, SinkMsg.metrics ms] ∧
      (cm = false → ms = []) ∧
      ((∀ b ∈ bs, _convert data_files (read b) = none) → nb = [] ∧ ms = []) := by
  refine ⟨bs.filterMap (fun b => _convert data_files (read b)),
          if cm then
            bs.filterMap (fun b => (_convert data_files (read b)).bind
              (fun _ => _compute_metrics snapshot todayYear (read b)))
          else [], ?_, ?_, ?_⟩
  · unfold process_bibcodes
    rw [foldl_processOne]
    simp
  · intro h
    simp [h]
  · intro h
    have h1 : List.filterMap (fun b => _convert data_files (read b)) bs = [] :=
      List.filterMap_eq_nil_iff.mpr h
    have h2 : List.filterMap (fun b => (_convert data_files (read b)).bind
        (fun _ => _compute_metrics snapshot todayYear (read b))) bs = [] := by
      rw [List.filterMap_eq_nil_iff]
      intro b hb
      rw [h b hb]
      rfl
    exact ⟨h1, by cases cm <;> simp [h2]⟩

/-- C10, witness: a batch of one bibcode whose conversion fails (its record
mentions a filetype absent from the empty table) still dispatches both batch
messages, each empty. -/
theorem C10_witness :
    process_bibcodes ([] : List (String × FieldDefinition)) snapC10 2026 readC10
        true ["x"] = [SinkMsg.nonbib [], SinkMsg.metrics []] := by
  obtain ⟨nb, ms, h1, _, h3⟩ :=
    C10_always_two_dispatches [] snapC10 2026 readC10 true ["x"]
  have hall : ∀ b ∈ ["x"], _convert [] (readC10 b) = none := by
    intro b hb
    rw [List.mem_singleton] at hb
    subst hb
    rfl
  obtain ⟨hnb, hms⟩ := h3 hall
  rw [h1, hnb, hms]

/-- C8: the row builder resolves link_sub_type from the value before the
definition, but the space + subparts.item_count suffix is never appended: the
guard compares the value against the type object dict with an identity test
(`value is dict`), which no data value satisfies, leaving the suffix code
dead.  At the failing input — a map carrying link_sub_type PDF and
subparts.item_count 3 — the produced row keeps link_sub_type PDF where the
documented behavior is PDF 3. -/
theorem C8_suffix_never_appended :
    _convert_data_link dfC8x "efile"
        (.dict [("link_sub_type", .str "PDF"),
                ("subparts", .dict [("item_count", .int 3)])])
      = some ⟨"ESOURCE", some "PDF", some [""], some [""], some 0⟩ := rfl

/-- C9, counterexample to the claim as stated: a structured map value whose
url field is an explicit empty list produces a row whose url sequence is
empty, and that row is appended to data_links_rows by a successful
conversion. -/
theorem C9_counterexample :
    _convert_data_link dfC9x "figs9" (.dict [("url", .list [])])
      = some ⟨"DATA", some "NED", some [], some [""], some 0⟩ ∧
    (_convert dfC9x passedC9x).bind (fun rv => rget rv "data_links_rows")
      = some (.rows [⟨"DATA", some "NED", some [], some [""], some 0⟩]) :=
  ⟨rfl, rfl⟩

/-- C2, counterexample to the claim as stated: the data summary is computed
before the merge, over the pre-merge rows.  With two DATA rows sharing the
link_sub_type SIMBAD, the dispatched record has a merged row set with a
single row (SIMBAD, item_count 3) but a data field holding two entries,
SIMBAD:1 and SIMBAD:2 — not exactly one entry per distinct merged
link_sub_type carrying the merged count. -/
theorem C2_counterexample :
    (_convert dfC2x passedC2x).bind (fun rv => rget rv "data")
      = some (.slist ["SIMBAD:1", "SIMBAD:2"]) ∧
    (_convert dfC2x passedC2x).bind (fun rv => rget rv "data_links_rows")
      = some (.rows [⟨"DATA", some "SIMBAD", some ["", ""], some ["", ""], some 3⟩]) ∧
    (_convert dfC2x passedC2x).bind (fun rv => rget rv "total_link_counts")
      = some (.int 3) :=
  ⟨rfl, rfl, rfl⟩

/-- C3, counterexample to the claim as stated, at two inputs.  First, a field
with a boolean-typed default equal to its raw (unwrapped) value and with
copy_default unset still appears as a key of the converted record — the
boolean flattening step copies it unconditionally — and it appears with the
unwrapped value rather than the raw one.  Second, a field with an
extra_values block whose value differs from its default does not appear as a
key at all. -/
theorem C3_counterexample :
    ((_convert dfC3a passedC3a).bind (fun rv => rget rv "flagfield")
      = some (.raw (.bool false))) ∧
    ((_convert dfC3b passedC3b).isSome = true) ∧
    ((_convert dfC3b passedC3b).bind (fun rv => rget rv "assoc") = none) :=
  ⟨rfl, rfl, rfl⟩


theorem mergeGroup_spec (rest : List DataLinkRow) :
    ∀ (acc : DataLinkRow) (u t : List String) (c : Int),
      acc.url = some u → acc.title = some t → acc.item_count = some c →
      (∀ r ∈ rest, r.url.isSome ∧ r.title.isSome) →
      mergeGroup acc rest = some
        { link_type := acc.link_type, link_sub_type := acc.link_sub_type,
          url := some (u ++ (rest.map (fun r => r.url.getD [])).flatten),
          title := some (t ++ (rest.map (fun r => r.title.getD [])).flatten),
          item_count := some (c + (rest.map (fun r => r.item_count.getD 1)).sum) } := by
  induction rest with
  | nil =>
    intro acc u t c hu ht hc _
    cases acc
    simp_all [mergeGroup]
  | cons m ms ih =>
    intro acc u t c hu ht hc hall
    obtain ⟨hmu, hmt⟩ := hall m (List.mem_cons_self _ _)
    obtain ⟨um, hum⟩ := Option.isSome_iff_exists.mp hmu
    obtain ⟨tm, htm⟩ := Option.isSome_iff_exists.mp hmt
    rw [mergeGroup, hu, hum, ht, htm, hc]
    have key := ih { acc with
                       url := some (u ++ um)
                       title := some (t ++ tm)
                       item_count := some (c + m.item_count.getD 1) }
      (u ++ um) (t ++ tm) (c + m.item_count.getD 1) rfl rfl rfl
      (fun r hr => hall r (List.mem_cons_of_mem _ hr))
    exact key.trans (by simp [hum, htm, List.append_assoc, add_assoc])

theorem mergeGroup_key (rest : List DataLinkRow) :
    ∀ (acc r : DataLinkRow), mergeGroup acc rest = some r →
      r.link_type = acc.link_type ∧ r.link_sub_type = acc.link_sub_type := by
  induction rest with
  | nil =>
    intro acc r h
    rw [mergeGroup] at h
    cases h
    exact ⟨rfl, rfl⟩
  | cons m ms ih =>
    intro acc r h
    rw [mergeGroup] at h
    simp only [bind, Option.bind_eq_some] at h
    obtain ⟨u, hu, mu, hmu, t, ht, mt, htm, c, hc, h⟩ := h
    have hstep := ih { acc with
                         url := some (u ++ mu)
                         title := some (t ++ mt)
                         item_count := some (c + m.item_count.getD 1) } r h
    exact hstep

/-- Rows with equal link_type and link_sub_type have the same grouping key. -/
theorem rowKey_congr (r s : DataLinkRow) (h1 : r.link_type = s.link_type)
    (h2 : r.link_sub_type = s.link_sub_type) : rowKey r = rowKey s := by
  simp [rowKey, h1, h2]

theorem mergeGroups_forall₂ (datalinks : List DataLinkRow) (ks : List String) :
    ∀ out, mergeGroups datalinks ks = some out →
      List.Forall₂ (fun k r => rowKey r = some k) ks out := by
  induction ks with
  | nil =>
    intro out h
    rw [mergeGroups, List.mapM_nil] at h
    cases h
    exact List.Forall₂.nil
  | cons k ks ih =>
    intro out h
    rw [mergeGroups, List.mapM_cons] at h
    simp only [bind, Option.bind_eq_some, Option.pure_def, Option.some_inj] at h
    obtain ⟨r, hr, out1, hout1, hout⟩ := h
    subst hout
    rw [mergeOneGroup] at hr
    refine List.Forall₂.cons ?_ (ih out1 (by rw [mergeGroups]; exact hout1))
    rcases hfil : datalinks.filter (fun d => decide (rowKey d = some k)) with
      _ | ⟨first, rest⟩
    · rw [hfil] at hr
      cases hr
    · have hfirst : rowKey first = some k := by
        have hmem : first ∈ datalinks.filter (fun d => decide (rowKey d = some k)) := by
          rw [hfil]
          exact List.mem_cons_self _ _
        simpa using List.of_mem_filter hmem
      rcases rest with _ | ⟨r2, rest2⟩
      · rw [hfil] at hr
        cases hr
        exact hfirst
      · rw [hfil] at hr
        have hk := mergeGroup_key (r2 :: rest2) first r hr
        rw [rowKey_congr r first hk.1 hk.2]
        exact hfirst

theorem forall₂_mapM_rowKey (ks : List String) (out : List DataLinkRow) :
    List.Forall₂ (fun k r => rowKey r = some k) ks out →
    out.mapM rowKey = some ks := by
  intro h
  induction h with
  | nil => rfl
  | cons hkr htl ih =>
    rw [List.mapM_cons, hkr, ih]
    rfl

theorem firstDedupAux_not_mem_seen (l : List String) :
    ∀ seen x, x ∈ firstDedupAux seen l → x ∉ seen := by
  induction l with
  | nil =>
    intro seen x hx
    simp [firstDedupAux] at hx
  | cons a l ih =>
    intro seen x hx
    rw [firstDedupAux] at hx
    by_cases ha : a ∈ seen
    · rw [if_pos ha] at hx
      exact ih seen x hx
    · rw [if_neg ha] at hx
      rcases List.mem_cons.mp hx with hxa | hxl
      · subst hxa
        exact ha
      · intro hxs
        exact ih (seen ++ [a]) x hxl (List.mem_append_left _ hxs)

theorem firstDedupAux_nodup (l : List String) :
    ∀ seen, (firstDedupAux seen l).Nodup := by
  induction l with
  | nil => intro seen; simp [firstDedupAux]
  | cons a l ih =>
    intro seen
    rw [firstDedupAux]
    by_cases ha : a ∈ seen
    · rw [if_pos ha]
      exact ih seen
    · rw [if_neg ha]
      refine List.nodup_cons.mpr ⟨?_, ih (seen ++ [a])⟩
      intro hmem
      exact firstDedupAux_not_mem_seen l (seen ++ [a]) a hmem
        (List.mem_append_right _ (List.mem_singleton_self _))

theorem firstDedup_nodup (l : List String) : (firstDedup l).Nodup :=
  firstDedupAux_nodup l []

theorem firstDedupAux_eq_self (l : List String) :
    ∀ seen, l.Nodup → (∀ x ∈ l, x ∉ seen) → firstDedupAux seen l = l := by
  induction l with
  | nil => intro seen _ _; rfl
  | cons a l ih =>
    intro seen hnd hdisj
    rw [firstDedupAux, if_neg (hdisj a (List.mem_cons_self _ _))]
    congr 1
    refine ih (seen ++ [a]) (List.nodup_cons.mp hnd).2 ?_
    intro x hx
    rw [List.mem_append]
    rintro (hxs | hxa)
    · exact hdisj x (List.mem_cons_of_mem _ hx) hxs
    · rw [List.mem_singleton] at hxa
      subst hxa
      exact (List.nodup_cons.mp hnd).1 hx

theorem firstDedup_eq_self (l : List String) (h : l.Nodup) : firstDedup l = l :=
  firstDedupAux_eq_self l [] h (by simp)

theorem mapM_rowKey_const (k : String) (l : List DataLinkRow)
    (h : ∀ r ∈ l, rowKey r = some k) :
    l.mapM rowKey = some (l.map (fun _ => k)) := by
  induction l with
  | nil => rfl
  | cons r rs ih =>
    rw [List.mapM_cons, h r (List.mem_cons_self _ _),
      ih (fun x hx => h x (List.mem_cons_of_mem _ hx))]
    rfl

theorem firstDedupAux_all_mem (l : List String) :
    ∀ seen, (∀ x ∈ l, x ∈ seen) → firstDedupAux seen l = [] := by
  induction l with
  | nil => intro seen _; rfl
  | cons a l ih =>
    intro seen hall
    rw [firstDedupAux, if_pos (hall a (List.mem_cons_self _ _))]
    exact ih seen (fun x hx => hall x (List.mem_cons_of_mem _ hx))

theorem firstDedup_all_eq (k : String) (ks : List String) (h : ∀ x ∈ ks, x = k) :
    firstDedup (k :: ks) = [k] := by
  rw [firstDedup, firstDedupAux, if_neg (List.not_mem_nil k)]
  rw [firstDedupAux_all_mem ks ([] ++ [k])
    (fun x hx => by rw [h x hx]; exact List.mem_append_right _ (List.mem_singleton_self _))]

theorem merge_data_links_eq (l : List DataLinkRow) (ks : List String)
    (h : l.mapM rowKey = some ks) :
    _merge_data_links l =
      (if (firstDedup ks).length = l.length then some l
       else mergeGroups l (firstDedup ks)) := by
  rw [_merge_data_links, h]
  rfl

/-- C5: merging rows with one shared (link_type, link_sub_type) key yields a
single row concatenating the url and title sequences in encounter order and
summing item_count, a later row with its item_count absent counting as 1
(the first row must carry one); and the merge is idempotent — applying it to
an already-merged list (an output of the merge, whose keys are pairwise
distinct) returns it unchanged.  The grouping key is the formatted string
link_type ++ ":" ++ link_sub_type, as in the source. -/
theorem C5_merge_concat_and_idempotent :
    (∀ (lt lst : String) (first : DataLinkRow) (rest : List DataLinkRow)
       (u t : List String) (c : Int),
       (∀ r ∈ first :: rest, r.link_type = lt ∧ r.link_sub_type = some lst ∧
          r.url.isSome ∧ r.title.isSome) →
       first.url = some u → first.title = some t → first.item_count = some c →
       _merge_data_links (first :: rest) = some
         [{ link_type := lt, link_sub_type := some lst,
            url := some (u ++ (rest.map (fun r => r.url.getD [])).flatten),
            title := some (t ++ (rest.map (fun r => r.title.getD [])).flatten),
            item_count := some (c + (rest.map (fun r => r.item_count.getD 1)).sum) }]) ∧
    (∀ (l out : List DataLinkRow), _merge_data_links l = some out →
       _merge_data_links out = some out) := by
  constructor
  · intro lt lst first rest u t c hall hu ht hc
    have hkeyr : ∀ r ∈ first :: rest, rowKey r = some (lt ++ ":" ++ lst) := by
      intro r hr
      obtain ⟨h1, h2, _, _⟩ := hall r hr
      simp [rowKey, h1, h2]
    have hkeys := mapM_rowKey_const _ _ hkeyr
    have hded : firstDedup ((first :: rest).map (fun _ => lt ++ ":" ++ lst))
        = [lt ++ ":" ++ lst] := by
      rw [List.map_cons]
      refine firstDedup_all_eq _ _ ?_
      intro x hx
      obtain ⟨a, _, hax⟩ := List.mem_map.mp hx
      exact hax.symm
    rw [merge_data_links_eq _ _ hkeys, hded]
    rcases rest with _ | ⟨r2, rs⟩
    · rw [if_pos (by simp)]
      obtain ⟨h1, h2, _, _⟩ := hall first (List.mem_cons_self _ _)
      cases first
      simp_all
    · rw [if_neg (by simp)]
      rw [mergeGroups, List.mapM_cons, List.mapM_nil]
      have hfil : (first :: r2 :: rs).filter
          (fun d => decide (rowKey d = some (lt ++ ":" ++ lst))) = first :: r2 :: rs :=
        List.filter_eq_self.mpr (fun x hx => by simp [hkeyr x hx])
      have hmg := mergeGroup_spec (r2 :: rs) first u t c hu ht hc
        (fun r hr => ⟨(hall r (List.mem_cons_of_mem _ hr)).2.2.1,
                      (hall r (List.mem_cons_of_mem _ hr)).2.2.2⟩)
      rw [mergeOneGroup, hfil]
      obtain ⟨h1, h2, _, _⟩ := hall first (List.mem_cons_self _ _)
      rw [show (match first :: r2 :: rs with
          | [] => (none : Option DataLinkRow)
          | [m] => some m
          | first :: rest => mergeGroup first rest) = mergeGroup first (r2 :: rs) from rfl]
      rw [hmg]
      simp [h1, h2]
  · intro l out h
    rcases hmm : l.mapM rowKey with _ | ks
    · rw [_merge_data_links, hmm] at h
      exact absurd h (by simp)
    rw [merge_data_links_eq l ks hmm] at h
    by_cases hlen : (firstDedup ks).length = l.length
    · rw [if_pos hlen] at h
      cases h
      rw [merge_data_links_eq l ks hmm, if_pos hlen]
    · rw [if_neg hlen] at h
      have hf2 := mergeGroups_forall₂ l (firstDedup ks) out h
      have hmap : out.mapM rowKey = some (firstDedup ks) :=
        forall₂_mapM_rowKey _ _ hf2
      have hlen2 : (firstDedup (firstDedup ks)).length = out.length := by
        rw [firstDedup_eq_self _ (firstDedup_nodup ks)]
        exact hf2.length_eq
      rw [merge_data_links_eq out (firstDedup ks) hmap, if_pos hlen2]

/-- C5, witness: the two fixture rows share the key DATA:NED; the merge
concatenates urls and titles and sums the counts (the second row, missing its
item_count, counts as 1); re-merging the merged list returns it unchanged. -/
theorem C5_witness :
    _merge_data_links rowsC5 =
      some [⟨"DATA", some "NED", some ["u1", "u2"], some ["t1", "t2"], some 3⟩] ∧
    _merge_data_links
        [⟨"DATA", some "NED", some ["u1", "u2"], some ["t1", "t2"], some 3⟩] =
      some [⟨"DATA", some "NED", some ["u1", "u2"], some ["t1", "t2"], some 3⟩] := by
  obtain ⟨h1, h2⟩ := C5_merge_concat_and_idempotent
  have ha := h1 "DATA" "NED" ⟨"DATA", some "NED", some ["u1"], some ["t1"], some 2⟩
      [⟨"DATA", some "NED", some ["u2"], some ["t2"], none⟩] ["u1"] ["t1"] 2
      (by decide) rfl rfl rfl
  have hfirst : _merge_data_links rowsC5 =
      some [⟨"DATA", some "NED", some ["u1", "u2"], some ["t1", "t2"], some 3⟩] :=
    ha.trans rfl
  exact ⟨hfirst, h2 _ _ hfirst⟩

theorem metricsLoop_spec (snapshot : Snapshot) (author_num : Nat) (pubyear : Int) :
    ∀ (cs : List String) (acc out : ℚ × List RnDatum × List String),
      cs.foldlM (metricsLoopStep snapshot author_num pubyear) acc = some out →
      out.1 = acc.1 + (cs.map (fun c =>
          (1 : ℚ) / ((max 5 ((dlookup snapshot.reference c).getD []).length : ℕ) : ℚ))).sum ∧
      out.2.2 = acc.2.2 ++ cs.filter (fun c => snapshot.refereed.contains c) ∧
      out.2.1.map (fun x => (x.bibcode, x.ref_norm)) =
        acc.2.1.map (fun x => (x.bibcode, x.ref_norm)) ++ cs.map (fun c =>
          (c, (1 : ℚ) / ((max 5 ((dlookup snapshot.reference c).getD []).length : ℕ) : ℚ))) := by
  intro cs
  induction cs with
  | nil =>
    intro acc out h
    rw [List.foldlM_nil] at h
    cases h
    simp
  | cons c cs ih =>
    intro acc out h
    rw [List.foldlM_cons] at h
    simp only [bind, Option.bind_eq_some] at h
    obtain ⟨acc1, hacc1, h⟩ := h
    rw [metricsLoopStep] at hacc1
    simp only [bind, Option.bind_eq_some, Option.map_eq_some', Option.pure_def,
      Option.some_inj] at hacc1
    obtain ⟨len, ⟨l, hl, hlen⟩, cy, hcy, hacc1⟩ := hacc1
    subst hacc1
    obtain ⟨ih1, ih2, ih3⟩ := ih _ out h
    have hgd : ((dlookup snapshot.reference c).getD []).length = len := by
      rw [hl]
      exact hlen
    refine ⟨?_, ?_, ?_⟩
    · rw [ih1]
      simp [hgd, add_assoc]
    · rw [ih2]
      by_cases hb : c ∈ snapshot.refereed <;>
        simp [hb, List.filter_cons]
    · rw [ih3]
      simp [hgd]

/-- C4: in the metrics computation, each citing bibcode contributes the
normalized weight 1 / max(5, size of its referenced set); rn_citations is the
sum of those weights over the citing set, citation_num is the size of the
citing set, refereed_citation_num counts the citing bibcodes that are members
of the refereed set, and the per-citation detail records carry exactly those
weights.  (The worked example with values 2, 1 and 3/10 is the witness.) -/
theorem C4_metrics_formulas (snapshot : Snapshot) (todayYear : Int)
    (d : List (String × Val)) (b : String) (m : MetricsRecord)
    (hb : dget d "canonical" = some (.str b))
    (hm : _compute_metrics snapshot todayYear d = some m) :
    m.citation_num = ((dlookup snapshot.citation b).getD []).length ∧
    m.refereed_citation_num = (((dlookup snapshot.citation b).getD []).filter
      (fun c => snapshot.refereed.contains c)).length ∧
    m.rn_citations = (((dlookup snapshot.citation b).getD []).map (fun c =>
      (1 : ℚ) / ((max 5 ((dlookup snapshot.reference c).getD []).length : ℕ) : ℚ))).sum ∧
    m.rn_citation_data.map (fun x => (x.bibcode, x.ref_norm)) =
      ((dlookup snapshot.citation b).getD []).map (fun c =>
        (c, (1 : ℚ) / ((max 5 ((dlookup snapshot.reference c).getD []).length : ℕ) : ℚ))) := by
  rw [_compute_metrics, hb] at hm
  simp only [bind, Option.bind_eq_some, Option.map_eq_some', Option.pure_def,
    Option.some_inj] at hm
  obtain ⟨bb, hbb, an, han, cits, hcits, rn, ⟨rl, hrl, hrn⟩, py, hpy, acc, hacc,
    rd, hrd, dl, hdl, hm⟩ := hm
  subst hbb
  subst hm
  obtain ⟨h1, h2, h3⟩ := metricsLoop_spec snapshot an py cits _ acc hacc
  refine ⟨?_, ?_, ?_, ?_⟩
  · simp [hcits]
  · simp [hcits, h2]
  · simp [hcits, h1]
  · simp [hcits, h3]

/-- C4, witness: the worked example.  The snapshot gives the bibcode two
citing bibcodes with 3 and 10 references, the first refereed; citation_num is
2, refereed_citation_num is 1 and rn_citations is 1/5 + 1/10 = 3/10. -/
theorem C4_witness :
    (_compute_metrics snapC4 2026 dC4).map (fun m => m.citation_num) = some 2 ∧
    (_compute_metrics snapC4 2026 dC4).map (fun m => m.refereed_citation_num) = some 1 ∧
    (_compute_metrics snapC4 2026 dC4).map (fun m => m.rn_citations) = some (3 / 10) := by
  have hs : (_compute_metrics snapC4 2026 dC4).isSome = true := rfl
  obtain ⟨m, hm⟩ := Option.isSome_iff_exists.mp hs
  obtain ⟨h1, h2, h3, _⟩ :=
    C4_metrics_formulas snapC4 2026 dC4 "2020ApJ...900..100X" m rfl hm
  rw [hm]
  refine ⟨?_, ?_, ?_⟩
  · rw [Option.map_some', h1]
    rfl
  · rw [Option.map_some', h2]
    rfl
  · rw [Option.map_some', h3]
    rw [show (((dlookup snapC4.citation "2020ApJ...900..100X").getD []).map (fun c =>
        (1 : ℚ) / ((max 5 ((dlookup snapC4.reference c).getD []).length : ℕ) : ℚ)))
      = [1 / (5 : ℚ), 1 / 10] from rfl]
    rw [List.sum_cons, List.sum_cons, List.sum_nil]
    norm_num

theorem rget_rset_self (rv : RD) (k : String) (v : RVal) :
    rget (rset rv k v) k = some v := by
  induction rv with
  | nil => simp [rset, rget, dlookup]
  | cons p rest ih =>
    obtain ⟨k1, v1⟩ := p
    by_cases h : k1 = k
    · subst h
      simp [rset, rget, dlookup]
    · rw [show rset ((k1, v1) :: rest) k v = (k1, v1) :: rset rest k v by
        simp [rset, h]]
      rw [rget, dlookup, if_neg h]
      exact ih

theorem rget_rset_ne (rv : RD) {k1 k2 : String} (v : RVal) (h : k1 ≠ k2) :
    rget (rset rv k1 v) k2 = rget rv k2 := by
  induction rv with
  | nil => simp [rset, rget, dlookup, h]
  | cons p rest ih =>
    obtain ⟨ka, va⟩ := p
    by_cases hk : ka = k1
    · subst hk
      simp [rset, rget, dlookup, h]
    · rw [show rset ((ka, va) :: rest) k1 v = (ka, va) :: rset rest k1 v by
        simp [rset, hk]]
      by_cases hk2 : ka = k2
      · subst hk2
        simp [rget, dlookup]
      · rw [rget, dlookup, if_neg hk2, rget, dlookup, if_neg hk2]
        exact ih

theorem rget_rpop_ne (rv : RD) {k1 k2 : String} (h : k1 ≠ k2) :
    rget (rpop rv k1) k2 = rget rv k2 := by
  induction rv with
  | nil => simp [rpop, rget, dlookup]
  | cons p rest ih =>
    obtain ⟨ka, va⟩ := p
    by_cases hk : ka = k1
    · subst hk
      rw [show rpop ((ka, va) :: rest) ka = rpop rest ka by simp [rpop]]
      rw [show rget ((ka, va) :: rest) k2 = rget rest k2 by
        simp [rget, dlookup, h]]
      exact ih
    · rw [show rpop ((ka, va) :: rest) k1 = (ka, va) :: rpop rest k1 by
        simp [rpop, hk]]
      by_cases hk2 : ka = k2
      · subst hk2
        simp [rget, dlookup]
      · rw [rget, dlookup, if_neg hk2, rget, dlookup, if_neg hk2]
        exact ih

theorem strLeB_total (a b : String) : strLeB a b = true ∨ strLeB b a = true := by
  rw [strLeB, strLeB]
  generalize a.data = la
  generalize b.data = lb
  induction la generalizing lb with
  | nil => left; rfl
  | cons x xs ih =>
    cases lb with
    | nil => right; rfl
    | cons y ys =>
      rw [lexLeB, lexLeB]
      by_cases hxy : charLtB x y = true
      · left
        rw [if_pos hxy]
      · by_cases hyx : charLtB y x = true
        · right
          rw [if_pos hyx]
        · rw [if_neg hxy, if_neg hyx, if_neg hyx, if_neg hxy]
          exact ih ys

theorem charLtB_asymm {a b : Char} (h : charLtB a b = true) : charLtB b a = false := by
  simp only [charLtB, decide_eq_true_eq] at h
  simp only [charLtB, decide_eq_false_iff_not]
  omega

theorem charLtB_eq {a b : Char} (h1 : charLtB a b = false) (h2 : charLtB b a = false) :
    a.toNat = b.toNat := by
  simp only [charLtB, decide_eq_false_iff_not] at h1 h2
  omega

theorem lexLeB_trans :
    ∀ (la lb lc : List Char), lexLeB la lb = true → lexLeB lb lc = true →
      lexLeB la lc = true := by
  intro la
  induction la with
  | nil => intro lb lc _ _; rfl
  | cons a as ih =>
    intro lb lc h1 h2
    cases lb with
    | nil => exact absurd h1 (by simp [lexLeB])
    | cons b bs =>
      cases lc with
      | nil => exact absurd h2 (by simp [lexLeB])
      | cons c cs =>
        rw [lexLeB] at h1 h2 ⊢
        by_cases hab : charLtB a b = true
        · by_cases hbc : charLtB b c = true
          · rw [if_pos (show charLtB a c = true by
              simp only [charLtB, decide_eq_true_eq] at hab hbc ⊢
              omega)]
          · by_cases hcb : charLtB c b = true
            · rw [if_neg hbc, if_pos hcb] at h2
              cases h2
            · have hbceq := charLtB_eq (by simpa using hbc) (by simpa using hcb)
              rw [if_pos (show charLtB a c = true by
                simp only [charLtB, decide_eq_true_eq] at hab ⊢
                omega)]
        · by_cases hba : charLtB b a = true
          · rw [if_neg hab, if_pos hba] at h1
            cases h1
          · have habeq := charLtB_eq (by simpa using hab) (by simpa using hba)
            rw [if_neg hab, if_neg hba] at h1
            by_cases hbc : charLtB b c = true
            · rw [if_pos (show charLtB a c = true by
                simp only [charLtB, decide_eq_true_eq] at hbc ⊢
                omega)]
            · by_cases hcb : charLtB c b = true
              · rw [if_neg hbc, if_pos hcb] at h2
                cases h2
              · have hbceq := charLtB_eq (by simpa using hbc) (by simpa using hcb)
                rw [if_neg hbc, if_neg hcb] at h2
                have hac : charLtB a c = false := by
                  simp only [charLtB, decide_eq_false_iff_not]
                  omega
                have hca : charLtB c a = false := by
                  simp only [charLtB, decide_eq_false_iff_not]
                  omega
                rw [if_neg (by simp [hac]), if_neg (by simp [hca])]
                exact ih bs cs h1 h2

theorem rget_foldl_rpop (ks : List String) :
    ∀ (rv : RD) (k : String), k ∉ ks →
      rget (ks.foldl rpop rv) k = rget rv k := by
  induction ks with
  | nil => intro rv k _; rfl
  | cons a ks ih =>
    intro rv k hk
    rw [List.foldl_cons]
    rw [ih (rpop rv a) k (fun hm => hk (List.mem_cons_of_mem _ hm))]
    exact rget_rpop_ne rv (fun ha => hk (ha ▸ List.mem_cons_self _ _))

theorem strLeB_trans (a b c : String) (h1 : strLeB a b = true)
    (h2 : strLeB b c = true) : strLeB a c = true :=
  lexLeB_trans a.data b.data c.data h1 h2

theorem mem_pyOrderedInsert (x y : String) :
    ∀ l, (y ∈ pyOrderedInsert x l ↔ y = x ∨ y ∈ l) := by
  intro l
  induction l with
  | nil => simp [pyOrderedInsert]
  | cons z zs ih =>
    rw [pyOrderedInsert]
    by_cases h : strLeB x z = true
    · rw [if_pos h]
      simp [List.mem_cons]
    · rw [if_neg h]
      simp only [List.mem_cons, ih]
      tauto

theorem pairwise_pyOrderedInsert (x : String) :
    ∀ l, l.Pairwise (fun a b => strLeB a b = true) →
      (pyOrderedInsert x l).Pairwise (fun a b => strLeB a b = true) := by
  intro l
  induction l with
  | nil =>
    intro _
    simp [pyOrderedInsert]
  | cons y ys ih =>
    intro hp
    rw [pyOrderedInsert]
    by_cases hxy : strLeB x y = true
    · rw [if_pos hxy]
      refine List.Pairwise.cons ?_ hp
      intro z hz
      rcases List.mem_cons.mp hz with rfl | hzys
      · exact hxy
      · exact strLeB_trans _ _ _ hxy (List.rel_of_pairwise_cons hp hzys)
    · rw [if_neg hxy]
      have hyx : strLeB y x = true := (strLeB_total x y).resolve_left hxy
      refine List.Pairwise.cons ?_ (ih (List.Pairwise.of_cons hp))
      intro z hz
      rcases (mem_pyOrderedInsert x z ys).mp hz with rfl | hzys
      · exact hyx
      · exact List.rel_of_pairwise_cons hp hzys

theorem sortStrings_pairwise (l : List String) : pySorted (sortStrings l) := by
  induction l with
  | nil => simp [sortStrings, pySorted]
  | cons x xs ih => exact pairwise_pyOrderedInsert x _ ih

theorem mem_sortStrings (x : String) :
    ∀ l, (x ∈ sortStrings l ↔ x ∈ l) := by
  intro l
  induction l with
  | nil => simp [sortStrings]
  | cons y ys ih =>
    rw [sortStrings, mem_pyOrderedInsert]
    simp [ih]

theorem summaryFold_spec (rs : List DataLinkRow) :
    ∀ (acc : List String × Int) (es : List String) (tot : Int),
      rs.foldlM summaryStep acc = some (es, tot) →
      es.length = acc.1.length +
        (rs.filter (fun r => decide (r.link_type = "DATA"))).length ∧
      tot = acc.2 + ((rs.filter (fun r => decide (r.link_type = "DATA"))).map
        (fun r => r.item_count.getD 0)).sum := by
  induction rs with
  | nil =>
    intro acc es tot h
    rw [List.foldlM_nil] at h
    cases h
    simp
  | cons r rs ih =>
    intro acc es tot h
    rw [List.foldlM_cons] at h
    simp only [bind, Option.bind_eq_some] at h
    obtain ⟨acc1, hacc1, h⟩ := h
    rw [summaryStep] at hacc1
    by_cases hd : r.link_type = "DATA"
    · rw [if_pos hd] at hacc1
      simp only [bind, Option.bind_eq_some, Option.pure_def, Option.some_inj] at hacc1
      obtain ⟨sub, hsub, hacc1⟩ := hacc1
      subst hacc1
      obtain ⟨ih1, ih2⟩ := ih _ es tot h
      constructor
      · rw [ih1]
        simp [List.filter_cons, hd]
        omega
      · rw [ih2]
        simp [List.filter_cons, hd]
        ring
    · rw [if_neg hd] at hacc1
      simp only [Option.pure_def, Option.some_inj] at hacc1
      subst hacc1
      obtain ⟨ih1, ih2⟩ := ih _ es tot h
      constructor <;> simp [List.filter_cons, hd, ih1, ih2]

theorem convert_inv (df : List (String × FieldDefinition)) (passed : List (String × Val))
    (rv : RD) (h : _convert df passed = some rv) :
    ∃ r1 r2 r3 r4 r5 r6 r7 r8,
      convertLoop df passed
        [("data_links_rows", .rows []), ("property", .pset []), ("esource", .pset [])]
        passed = some r1 ∧
      _add_refereed_property r1 = some r2 ∧
      _add_article_property r2 passed = some r3 ∧
      sortKey r3 "property" = some r4 ∧
      sortKey r4 "esource" = some r5 ∧
      _add_data_summary r5 = some r6 ∧
      mergeStep r6 = some r7 ∧
      _add_citation_count_norm_field r7 passed = some r8 ∧
      rv = not_needed.foldl rpop r8 := by
  rw [_convert] at h
  simp only [bind, Option.bind_eq_some, Option.pure_def, Option.some_inj] at h
  obtain ⟨r1, h1, r2, h2, r3, h3, r4, h4, r5, h5, r6, h6, r7, h7, r8, h8, hrv⟩ := h
  exact ⟨r1, r2, r3, r4, r5, r6, r7, r8, h1, h2, h3, h4, h5, h6, h7, h8, hrv.symm⟩

/-- C2 (amended): the data summary is computed over the PRE-merge row list.
For every record returned by convert there is a pre-merge row list whose merge
gives the final data_links_rows; the data field holds exactly one
SUBTYPE:COUNT string per DATA-typed pre-merge row (an absent count printing
as 0), sorted ascending, and total_link_counts is the sum of the item_count
values over the DATA-typed pre-merge rows.  With duplicate sub-types the data
field therefore holds one entry per duplicate, not one per distinct merged
sub-type. -/
theorem C2_data_summary_premerge (df : List (String × FieldDefinition))
    (passed : List (String × Val)) (rv : RD)
    (hconv : _convert df passed = some rv) :
    ∃ rows0 es tot merged,
      summaryOf rows0 = some (es, tot) ∧
      _merge_data_links rows0 = some merged ∧
      rget rv "data_links_rows" = some (.rows merged) ∧
      rget rv "data" = some (.slist (sortStrings es)) ∧
      pySorted (sortStrings es) ∧
      rget rv "total_link_counts" = some (.int tot) ∧
      es.length = (rows0.filter (fun r => decide (r.link_type = "DATA"))).length ∧
      tot = ((rows0.filter (fun r => decide (r.link_type = "DATA"))).map
        (fun r => r.item_count.getD 0)).sum := by
  obtain ⟨r1, r2, r3, r4, r5, r6, r7, r8, hl, hrefp, hart, hsp, hse, hsum, hmerge,
    hccn, hrv⟩ := convert_inv df passed rv hconv
  rw [_add_data_summary] at hsum
  simp only [bind, Option.bind_eq_some, Option.pure_def, Option.some_inj] at hsum
  obtain ⟨rs0, hrs0, st, hst, hr6⟩ := hsum
  obtain ⟨es, tot⟩ := st
  rw [mergeStep] at hmerge
  simp only [bind, Option.bind_eq_some, Option.pure_def, Option.some_inj] at hmerge
  obtain ⟨rs1, hrs1, merged, hmg, hr7⟩ := hmerge
  -- the rows read by the merge step are the rows read by the summary step
  have hrowr6 : rget r6 "data_links_rows" = rget r5 "data_links_rows" := by
    subst hr6
    rw [rget_rset_ne _ _ (by decide), rget_rset_ne _ _ (by decide)]
  have hrs : rs1 = rs0 := by
    rcases hr : rget r5 "data_links_rows" with _ | v
    · rw [hrowr6, hr] at hrs1
      cases hrs1
    · rcases v with v | s | xs | rs | n | q <;>
        rw [hrowr6, hr] at hrs1 <;> rw [hr] at hrs0 <;>
        first
          | (cases hrs1; exact Option.some_inj.mp hrs0)
          | cases hrs1
  subst hrs
  -- inversion of the citation_count_norm step
  rw [_add_citation_count_norm_field] at hccn
  simp only [bind, Option.bind_eq_some, Option.pure_def, Option.some_inj] at hccn
  obtain ⟨ac, hac, cc, hcc, hr8⟩ := hccn
  -- read the three keys back through the later steps
  obtain ⟨hlen, htot⟩ := summaryFold_spec rs1 ([], 0) es tot hst
  refine ⟨rs1, es, tot, merged, hst, hmg, ?_, ?_, sortStrings_pairwise es, ?_, ?_, ?_⟩
  · subst hrv hr8 hr7
    rw [rget_foldl_rpop _ _ _ (by decide), rget_rset_ne _ _ (by decide),
      rget_rset_self]
  · subst hrv hr8 hr7 hr6
    rw [rget_foldl_rpop _ _ _ (by decide), rget_rset_ne _ _ (by decide),
      rget_rset_ne _ _ (by decide), rget_rset_ne _ _ (by decide), rget_rset_self]
  · subst hrv hr8 hr7 hr6
    rw [rget_foldl_rpop _ _ _ (by decide), rget_rset_ne _ _ (by decide),
      rget_rset_ne _ _ (by decide), rget_rset_self]
  · simpa using hlen
  · simpa using htot

/-- C2, witness: at the duplicate-SIMBAD fixture the conversion succeeds and
the amended characterization applies. -/
theorem C2_witness :
    ((_convert dfC2x passedC2x).bind (fun rv => rget rv "data")).isSome = true ∧
    ((_convert dfC2x passedC2x).bind (fun rv => rget rv "data_links_rows")).isSome
      = true := by
  have hs : (_convert dfC2x passedC2x).isSome = true := rfl
  obtain ⟨rv, hrv⟩ := Option.isSome_iff_exists.mp hs
  obtain ⟨rows0, es, tot, merged, _, _, hrows, hdata, _, htot, _, _⟩ :=
    C2_data_summary_premerge dfC2x passedC2x rv hrv
  rw [hrv]
  constructor <;> simp [hdata, hrows]

/-- C6: for every record returned by convert (with the raw author field
absent or a list, the shapes the reader produces), citation_count_norm equals
citation_count divided by max(author_count, 1), where citation_count is the
value visible on the record (0 when absent) and author_count is the size of
the raw author list (0 when absent, clamped to 1 by the max). -/
theorem C6_citation_count_norm (df : List (String × FieldDefinition))
    (passed : List (String × Val)) (rv : RD)
    (hconv : _convert df passed = some rv)
    (hauthor : dget passed "author" = none ∨
      ∃ xs, dget passed "author" = some (.list xs)) :
    rget rv "citation_count_norm" =
      some (.num ((citationCountOf rv : ℚ) /
        ((max (authorCountOf passed) 1 : ℕ) : ℚ))) := by
  obtain ⟨r1, r2, r3, r4, r5, r6, r7, r8, hl, hrefp, hart, hsp, hse, hsum, hmerge,
    hccn, hrv⟩ := convert_inv df passed rv hconv
  rw [_add_citation_count_norm_field] at hccn
  simp only [bind, Option.bind_eq_some, Option.pure_def, Option.some_inj] at hccn
  obtain ⟨ac, hac, cc, hcc, hr8⟩ := hccn
  have hac2 : ac = authorCountOf passed := by
    rcases hauthor with hnone | ⟨xs, hxs⟩
    · rw [hnone] at hac
      rw [authorCountOf, hnone]
      exact (Option.some_inj.mp hac).symm
    · rw [hxs] at hac
      rw [authorCountOf, hxs]
      exact (Option.some_inj.mp hac).symm
  have hcckey : rget rv "citation_count" = rget r7 "citation_count" := by
    subst hrv
    subst hr8
    rw [rget_foldl_rpop _ _ _ (by decide), rget_rset_ne _ _ (by decide)]
  have hcc2 : cc = citationCountOf rv := by
    rw [citationCountOf, hcckey]
    rcases hr : rget r7 "citation_count" with _ | v
    · rw [hr] at hcc
      exact (Option.some_inj.mp hcc).symm
    · rcases v with v | s | xs | rs | n | q <;> rw [hr] at hcc
      · rcases v with b | n | sv | xv | dv
        case int =>
          exact (Option.some_inj.mp hcc).symm
        all_goals cases hcc
      all_goals cases hcc
  have hfinal : rget rv "citation_count_norm" =
      some (.num ((cc : ℚ) / ((max ac 1 : ℕ) : ℚ))) := by
    rw [hrv, ← hr8, rget_foldl_rpop _ _ _ (by decide), rget_rset_self]
  rw [hfinal, hcc2, hac2]

/-- C6, witness: citation_count 10 with five authors gives 2; citation_count
10 with an empty author list divides by 1, as an absent list would. -/
theorem C6_witness :
    ((_convert dfC6 passedC6).bind (fun rv => rget rv "citation_count_norm"))
      = some (.num 2) ∧
    ((_convert dfC6 passedC6b).bind (fun rv => rget rv "citation_count_norm"))
      = some (.num 10) := by
  constructor
  · have hs : (_convert dfC6 passedC6).isSome = true := rfl
    rcases hc : _convert dfC6 passedC6 with _ | rv
    · rw [hc] at hs
      cases hs
    · have h := C6_citation_count_norm dfC6 passedC6 rv hc (Or.inr ⟨_, rfl⟩)
      have h10 : (_convert dfC6 passedC6).map citationCountOf = some 10 := rfl
      rw [hc] at h10
      show rget rv "citation_count_norm" = some (.num 2)
      rw [h, Option.some_inj.mp h10]
      have hac : authorCountOf passedC6 = 5 := rfl
      rw [hac]
      norm_num
  · have hs : (_convert dfC6 passedC6b).isSome = true := rfl
    rcases hc : _convert dfC6 passedC6b with _ | rv
    · rw [hc] at hs
      cases hs
    · have h := C6_citation_count_norm dfC6 passedC6b rv hc (Or.inr ⟨_, rfl⟩)
      have h10 : (_convert dfC6 passedC6b).map citationCountOf = some 10 := rfl
      rw [hc] at h10
      show rget rv "citation_count_norm" = some (.num 10)
      rw [h, Option.some_inj.mp h10]
      have hac : authorCountOf passedC6b = 0 := rfl
      rw [hac]
      norm_num

theorem coerceStrList_ne_nil (o : Option Val) (u : List String)
    (h : coerceStrList o = some u) (hs : nonemptyShape o) : u ≠ [] := by
  rcases o with _ | v
  · cases Option.some_inj.mp h
    simp
  · rcases v with b | n | s | xs | kvs
    · cases h
    · cases h
    · cases Option.some_inj.mp h
      simp
    · rcases xs with _ | ⟨x, xs⟩
      · exact absurd hs (by simp [nonemptyShape])
      · rw [coerceStrList, List.mapM_cons] at h
        simp only [bind, Option.bind_eq_some, Option.pure_def, Option.some_inj] at h
        obtain ⟨a, ha, rest, hrest, hu⟩ := h
        rw [← hu]
        simp
    · cases h

/-- C9 (amended): every data-link row built from the boolean flag true has
url and title equal to the one-element sequence holding the empty string; a
row built from a structured map carries the coerced url/title payloads
(absent becomes that one-element sequence, a bare string becomes a
one-element sequence), which are non-empty whenever the map field is absent,
a bare string or a non-empty list.  A map may however carry an explicit empty
sequence — yielding an empty url or title (see the counterexample) — and a
value of unexpected type yields a row with url and title unset. -/
theorem C9_row_url_title (data_files : List (String × FieldDefinition))
    (filetype : String) (value : Val) (r : DataLinkRow)
    (hbuild : _convert_data_link data_files filetype value = some r) :
    (value = .bool true → r.url = some [""] ∧ r.title = some [""]) ∧
    (∀ kvs, value = .dict kvs →
      r.url = coerceStrList (dget kvs "url") ∧
      r.title = coerceStrList (dget kvs "title") ∧
      (nonemptyShape (dget kvs "url") → ∃ u, r.url = some u ∧ u ≠ []) ∧
      (nonemptyShape (dget kvs "title") → ∃ t, r.title = some t ∧ t ≠ [])) := by
  constructor
  · rintro rfl
    rw [_convert_data_link] at hbuild
    simp only [bind, Option.bind_eq_some, Option.pure_def, Option.some_inj] at hbuild
    obtain ⟨fp, hfp, ev, hev, lt, hlt, sub, hsub, fields, hfields, hr⟩ := hbuild
    subst hr
    subst hfields
    exact ⟨rfl, rfl⟩
  · rintro kvs rfl
    rw [_convert_data_link] at hbuild
    simp only [bind, Option.bind_eq_some, Option.pure_def, Option.some_inj] at hbuild
    obtain ⟨fp, hfp, ev, hev, lt, hlt, sub, hsub, fields, hfields, hr⟩ := hbuild
    subst hr
    obtain ⟨u, hu, t, ht, ic, hic, hf⟩ := hfields
    subst hf
    refine ⟨hu.symm, ht.symm, ?_, ?_⟩
    · intro hsu
      exact ⟨u, rfl, coerceStrList_ne_nil _ u hu hsu⟩
    · intro hst
      exact ⟨t, rfl, coerceStrList_ne_nil _ t ht hst⟩

/-- C9, witness: a flag-true value yields url and title both equal to the
one-element empty-string sequence; a map with url absent and a bare-string
title yields the coerced non-empty sequences. -/
theorem C9_witness :
    ((_convert_data_link dfC9x "figs9" (.bool true)).map (fun r => (r.url, r.title)))
      = some (some [""], some [""]) ∧
    ((_convert_data_link dfC9x "figs9" (.dict [("title", .str "T")])).map
        (fun r => (r.url, r.title)))
      = some (some [""], some ["T"]) := by
  constructor
  · have hs : (_convert_data_link dfC9x "figs9" (.bool true)).isSome = true := rfl
    rcases hb : _convert_data_link dfC9x "figs9" (.bool true) with _ | r
    · rw [hb] at hs
      cases hs
    · obtain ⟨hu, ht⟩ := (C9_row_url_title dfC9x "figs9" _ r hb).1 rfl
      simp [hu, ht, coerceStrList]
  · have hs : (_convert_data_link dfC9x "figs9"
        (.dict [("title", .str "T")])).isSome = true := rfl
    rcases hb : _convert_data_link dfC9x "figs9" (.dict [("title", .str "T")]) with _ | r
    · rw [hb] at hs
      cases hs
    · obtain ⟨hu, ht, _, _⟩ :=
        (C9_row_url_title dfC9x "figs9" _ r hb).2 _ rfl
      rw [Option.map_some']
      rw [show coerceStrList (dget [("title", Val.str "T")] "url") = some [""] from rfl] at hu
      rw [show coerceStrList (dget [("title", Val.str "T")] "title") = some ["T"] from rfl] at ht
      rw [hu, ht]

theorem mem_insertSet (s : List String) (x y : String) :
    y ∈ insertSet s x ↔ y ∈ s ∨ y = x := by
  rw [insertSet]
  by_cases h : x ∈ s
  · rw [if_pos h]
    constructor
    · exact Or.inl
    · rintro (hy | rfl)
      · exact hy
      · exact h
  · rw [if_neg h]
    simp [List.mem_append]

theorem mem_foldl_insertSet (xs : List String) :
    ∀ (s : List String) (y : String),
      (y ∈ xs.foldl insertSet s ↔ y ∈ s ∨ y ∈ xs) := by
  induction xs with
  | nil => intro s y; simp
  | cons x xs ih =>
    intro s y
    rw [List.foldl_cons, ih, mem_insertSet]
    simp [List.mem_cons]
    tauto

theorem psetAdd_rget_ne (rv rv' : RD) (key x : String) {k : String}
    (h : psetAdd rv key x = some rv') (hk : k ≠ key) :
    rget rv' k = rget rv k := by
  rw [psetAdd] at h
  rcases hr : rget rv key with _ | v <;> rw [hr] at h
  · cases h
  · rcases v with v | s | xs | rs | n | q <;> first
      | (cases h; exact rget_rset_ne rv _ (Ne.symm hk))
      | cases h

theorem psetAdd_rget_self (rv rv' : RD) (key x : String)
    (h : psetAdd rv key x = some rv') :
    ∃ s, rget rv key = some (.pset s) ∧
      rget rv' key = some (.pset (insertSet s x)) := by
  rw [psetAdd] at h
  rcases hr : rget rv key with _ | v <;> rw [hr] at h
  · cases h
  · rcases v with v | s | xs | rs | n | q <;> first
      | (cases h; exact ⟨_, rfl, rget_rset_self rv key _⟩)
      | cases h

theorem psetUpdate_rget_ne (xs : List String) :
    ∀ (rv rv' : RD) (key : String) {k : String},
      psetUpdate rv key xs = some rv' → k ≠ key → rget rv' k = rget rv k := by
  induction xs with
  | nil =>
    intro rv rv' key k h _
    rw [psetUpdate, List.foldlM_nil] at h
    cases h
    rfl
  | cons x xs ih =>
    intro rv rv' key k h hk
    rw [psetUpdate, List.foldlM_cons] at h
    simp only [bind, Option.bind_eq_some] at h
    obtain ⟨rv1, h1, h2⟩ := h
    rw [(ih rv1 rv' key h2 hk : rget rv' k = rget rv1 k)]
    exact psetAdd_rget_ne rv rv1 key x h1 hk

theorem psetUpdate_rget_self (xs : List String) :
    ∀ (rv rv' : RD) (key : String) (s : List String),
      rget rv key = some (.pset s) →
      psetUpdate rv key xs = some rv' →
      rget rv' key = some (.pset (xs.foldl insertSet s)) := by
  induction xs with
  | nil =>
    intro rv rv' key s hs h
    rw [psetUpdate, List.foldlM_nil] at h
    cases h
    exact hs
  | cons x xs ih =>
    intro rv rv' key s hs h
    rw [psetUpdate, List.foldlM_cons] at h
    simp only [bind, Option.bind_eq_some] at h
    obtain ⟨rv1, h1, h2⟩ := h
    obtain ⟨s0, hs0, hs1⟩ := psetAdd_rget_self rv rv1 key x h1
    rw [hs] at hs0
    cases Option.some_inj.mp hs0
    rw [List.foldl_cons]
    exact ih rv1 rv' key (insertSet s x) hs1 h2

theorem appendRow_rget_ne (rv rv' : RD) (d : DataLinkRow) {k : String}
    (h : appendRow rv d = some rv') (hk : k ≠ "data_links_rows") :
    rget rv' k = rget rv k := by
  rw [appendRow] at h
  rcases hr : rget rv "data_links_rows" with _ | v <;> rw [hr] at h
  · cases h
  · rcases v with v | s | xs | rs | n | q <;> first
      | (cases h; exact rget_rset_ne rv _ (Ne.symm hk))
      | cases h

theorem rowsFold_rget_ne (df : List (String × FieldDefinition)) (ft : String)
    (vs : List Val) :
    ∀ (rv rv' : RD) {k : String},
      vs.foldlM (fun rv v => do
        let d ← _convert_data_link df ft v
        appendRow rv d) rv = some rv' →
      k ≠ "data_links_rows" → rget rv' k = rget rv k := by
  induction vs with
  | nil =>
    intro rv rv' k h _
    rw [List.foldlM_nil] at h
    cases h
    rfl
  | cons v vs ih =>
    intro rv rv' k h hk
    rw [List.foldlM_cons] at h
    simp only [bind, Option.bind_eq_some] at h
    obtain ⟨rv1, ⟨d, hd, h1⟩, h2⟩ := h
    rw [ih rv1 rv' h2 hk]
    exact appendRow_rget_ne rv rv1 d h1 hk

theorem rget_foldl_rset (kvs : List (String × Val)) :
    ∀ (rv : RD) {k : String},
      (∀ p ∈ kvs, p.1 ≠ k) →
      rget (kvs.foldl (fun rv kv => rset rv kv.1 (.raw kv.2)) rv) k = rget rv k := by
  induction kvs with
  | nil => intro rv k _; rfl
  | cons kv kvs ih =>
    intro rv k hk
    rw [List.foldl_cons]
    rw [ih _ (fun p hp => hk p (List.mem_cons_of_mem _ hp))]
    exact rget_rset_ne rv _ (hk kv (List.mem_cons_self _ _))

theorem routeDataLinks_rget_ne (df : List (String × FieldDefinition))
    (ft : String) (value : Val) (rv rv' : RD) {k : String}
    (h : routeDataLinks df ft rv value = some rv') (hk : k ≠ "data_links_rows") :
    rget rv' k = rget rv k := by
  rcases value with b | n | sv | xs | kvs <;> simp only [routeDataLinks] at h
  · simp only [bind, Option.bind_eq_some] at h
    obtain ⟨d, hd, h⟩ := h
    exact appendRow_rget_ne _ _ d h hk
  · simp only [Option.pure_def, Option.some_inj] at h
    subst h
    rfl
  · simp only [Option.pure_def, Option.some_inj] at h
    subst h
    rfl
  · exact rowsFold_rget_ne df ft xs _ _ h hk
  · simp only [bind, Option.bind_eq_some] at h
    obtain ⟨d, hd, h⟩ := h
    exact appendRow_rget_ne _ _ d h hk

theorem relevanceLift_rget_ne (passed : List (String × Val)) (ft : String)
    (rv rv' : RD) {k : String}
    (h : relevanceLift passed ft rv = some rv')
    (hrel : ∀ kvs, dget passed ft = some (.dict kvs) → ∀ p ∈ kvs, p.1 ≠ k) :
    rget rv' k = rget rv k := by
  rw [relevanceLift] at h
  simp only [bind, Option.bind_eq_some] at h
  obtain ⟨v, hv, h⟩ := h
  rcases v with b | n | sv | xs | kvs
  · cases h
  · cases h
  · cases h
  · cases h
  · simp only [Option.pure_def, Option.some_inj] at h
    subst h
    exact rget_foldl_rset kvs rv (hrel kvs hv)

theorem convertBranch_rget_other (df : List (String × FieldDefinition))
    (passed : List (String × Val)) (ft : String) (fp : FieldDefinition)
    (rv : RD) (value : Val) (rv' : RD) {k : String}
    (h : convertBranch df passed ft fp rv value = some rv')
    (hft : k ≠ ft) (hes : k ≠ "esource") (hdl : k ≠ "data_links_rows")
    (hpr : k ≠ "property") :
    rget rv' k = rget rv k := by
  rw [convertBranch] at h
  rcases hev : fp.extra_values with _ | ev <;> simp only [hev] at h
  · by_cases hcopy : (!(Val.beq value fp.default_value) || fp.copy_default) = true
    · rw [if_pos hcopy] at h
      simp only [bind, Option.bind_eq_some, Option.pure_def, Option.some_inj] at h
      obtain ⟨orig, horig, h⟩ := h
      subst h
      exact rget_rset_ne rv _ (Ne.symm hft)
    · rw [if_neg hcopy] at h
      simp only [Option.pure_def, Option.some_inj] at h
      subst h
      rfl
  · by_cases h1 : (ev.link_type.isSome && !(Val.beq value fp.default_value)) = true
    · rw [if_pos h1] at h
      simp only [bind, Option.bind_eq_some, Option.pure_def, Option.some_inj] at h
      obtain ⟨rvR, hR, rvE, hE, lt, hlt, rvP, hP, h⟩ := h
      have hRk := routeDataLinks_rget_ne df ft value rv rvR hR hdl
      have hEk : rget rvE k = rget rvR k := by
        by_cases hesrc : ev.link_type = some "ESOURCE"
        · rw [if_pos hesrc] at hE
          simp only [bind, Option.bind_eq_some, Option.pure_def, Option.some_inj] at hE
          obtain ⟨lst, hlst, hE⟩ := hE
          exact psetAdd_rget_ne _ _ _ _ hE hes
        · rw [if_neg hesrc] at hE
          simp only [Option.pure_def, Option.some_inj] at hE
          subst hE
          rfl
      have hPk : rget rvP k = rget rvE k :=
        psetAdd_rget_ne _ _ _ _ hP hpr
      have hk2 : rget rv' k = rget rvP k :=
        psetUpdate_rget_ne _ _ _ _ h hpr
      rw [hk2, hPk, hEk, hRk]
    · rw [if_neg h1] at h
      by_cases h2 : (!(Val.beq value fp.default_value)) = true
      · rw [if_pos h2] at h
        rcases hevp : ev.property with _ | ps <;> simp only [hevp] at h
        · simp only [Option.pure_def, Option.some_inj] at h
          subst h
          rfl
        · exact psetUpdate_rget_ne _ _ _ _ h hpr
      · rw [if_neg h2] at h
        by_cases h3 : fp.copy_default = true
        · rw [if_pos h3] at h
          simp only [bind, Option.bind_eq_some, Option.pure_def, Option.some_inj] at h
          obtain ⟨orig, horig, h⟩ := h
          subst h
          exact rget_rset_ne rv _ (Ne.symm hft)
        · rw [if_neg h3] at h
          simp only [Option.pure_def, Option.some_inj] at h
          subst h
          rfl

theorem convertStep_rget_other (df : List (String × FieldDefinition))
    (passed : List (String × Val)) (rv : RD) (ft : String) (value0 : Val)
    (rv' : RD) {k : String}
    (hstep : convertStep df passed rv ft value0 = some rv')
    (hb : k ≠ "bibcode") (hft : k ≠ ft) (hes : k ≠ "esource")
    (hdl : k ≠ "data_links_rows") (hpr : k ≠ "property")
    (hrel : ∀ kvs, dget passed "relevance" = some (.dict kvs) →
      ∀ p ∈ kvs, p.1 ≠ k) :
    rget rv' k = rget rv k := by
  rw [convertStep] at hstep
  simp only [bind, Option.bind_eq_some, Option.pure_def, Option.some_inj] at hstep
  obtain ⟨fp, hfp, rvA, hA, fv, hB, rvC, hC, rvD, hD, hfin⟩ := hstep
  subst hfin
  have hAk : rget rvA k = rget rv k := by
    by_cases hc : ft = "canonical"
    · rw [if_pos hc] at hA
      simp only [bind, Option.bind_eq_some, Option.pure_def, Option.some_inj] at hA
      obtain ⟨c, hcv, hA⟩ := hA
      subst hA
      exact rget_rset_ne rv _ (Ne.symm hb)
    · rw [if_neg hc] at hA
      simp only [Option.pure_def, Option.some_inj] at hA
      subst hA
      rfl
  have hBk : rget fv.1 k = rget rvA k := by
    by_cases hbool : isBoolVal fp.default_value = true
    · rw [if_pos hbool] at hB
      simp only [bind, Option.bind_eq_some, Option.pure_def, Option.some_inj] at hB
      obtain ⟨inner, hin, hB⟩ := hB
      subst hB
      exact rget_rset_ne rvA _ (Ne.symm hft)
    · rw [if_neg hbool] at hB
      simp only [Option.pure_def, Option.some_inj] at hB
      subst hB
      rfl
  have hCk : rget rvC k = rget fv.1 k :=
    convertBranch_rget_other df passed ft fp fv.1 fv.2 rvC hC hft hes hdl hpr
  have hDk : rget rvD k = rget rvC k := by
    by_cases hrl : ft = "relevance"
    · rw [if_pos hrl] at hD
      subst hrl
      exact relevanceLift_rget_ne passed "relevance" rvC rvD hD hrel
    · rw [if_neg hrl] at hD
      simp only [Option.pure_def, Option.some_inj] at hD
      subst hD
      rfl
  rw [hDk, hCk, hBk, hAk]

theorem psetAdd_rget_known (rv rv' : RD) (key x : String) (s : List String)
    (hs : rget rv key = some (.pset s)) (h : psetAdd rv key x = some rv') :
    rget rv' key = some (.pset (insertSet s x)) := by
  rw [psetAdd, hs] at h
  cases h
  exact rget_rset_self rv key _

theorem dlookup_mem {α : Type} (l : List (String × α)) (k : String) (v : α)
    (h : dlookup l k = some v) : (k, v) ∈ l := by
  induction l with
  | nil => cases h
  | cons p rest ih =>
    obtain ⟨ka, va⟩ := p
    rw [dlookup] at h
    by_cases hk : ka = k
    · rw [if_pos hk] at h
      cases h
      subst hk
      exact List.mem_cons_self _ _
    · rw [if_neg hk] at h
      exact List.mem_cons_of_mem _ (ih h)

theorem convertBranch_rget_property (df : List (String × FieldDefinition))
    (passed : List (String × Val)) (ft : String) (fp : FieldDefinition)
    (rv : RD) (value : Val) (rv' : RD)
    (h : convertBranch df passed ft fp rv value = some rv')
    (hft : ft ≠ "property")
    (s : List String) (hs : rget rv "property" = some (.pset s)) :
    ∃ s2, rget rv' "property" = some (.pset s2) ∧
      ∀ x ∈ s2, x ∈ s ∨ ∃ ev, fp.extra_values = some ev ∧
        (ev.link_type = some x ∨ x ∈ ev.property.getD []) := by
  rw [convertBranch] at h
  rcases hev : fp.extra_values with _ | ev <;> simp only [hev] at h
  · by_cases hcopy : (!(Val.beq value fp.default_value) || fp.copy_default) = true
    · rw [if_pos hcopy] at h
      simp only [bind, Option.bind_eq_some, Option.pure_def, Option.some_inj] at h
      obtain ⟨orig, horig, h⟩ := h
      subst h
      exact ⟨s, by rw [rget_rset_ne _ _ hft]; exact hs, fun x hx => Or.inl hx⟩
    · rw [if_neg hcopy] at h
      simp only [Option.pure_def, Option.some_inj] at h
      subst h
      exact ⟨s, hs, fun x hx => Or.inl hx⟩
  · by_cases h1 : (ev.link_type.isSome && !(Val.beq value fp.default_value)) = true
    · rw [if_pos h1] at h
      simp only [bind, Option.bind_eq_some, Option.pure_def, Option.some_inj] at h
      obtain ⟨rvR, hR, rvE, hE, lt2, hlt, rvP, hP, h⟩ := h
      have hsR : rget rvR "property" = some (.pset s) := by
        rw [routeDataLinks_rget_ne df ft value rv rvR hR (by decide)]
        exact hs
      have hsE : rget rvE "property" = some (.pset s) := by
        by_cases hesrc : ev.link_type = some "ESOURCE"
        · rw [if_pos hesrc] at hE
          simp only [bind, Option.bind_eq_some, Option.pure_def,
            Option.some_inj] at hE
          obtain ⟨lst, hlst, hE⟩ := hE
          rw [psetAdd_rget_ne _ _ _ _ hE (by decide)]
          exact hsR
        · rw [if_neg hesrc] at hE
          simp only [Option.pure_def, Option.some_inj] at hE
          subst hE
          exact hsR
      have hsP := psetAdd_rget_known rvE rvP "property" lt2 s hsE hP
      refine ⟨(ev.property.getD []).foldl insertSet (insertSet s lt2),
        psetUpdate_rget_self _ _ _ _ _ hsP h, fun x hx => ?_⟩
      rw [mem_foldl_insertSet] at hx
      rcases hx with hx | hx
      · rw [mem_insertSet] at hx
        rcases hx with hx | hx
        · exact Or.inl hx
        · subst hx
          exact Or.inr ⟨ev, rfl, Or.inl hlt⟩
      · exact Or.inr ⟨ev, rfl, Or.inr hx⟩
    · rw [if_neg h1] at h
      by_cases h2 : (!(Val.beq value fp.default_value)) = true
      · rw [if_pos h2] at h
        rcases hevp : ev.property with _ | ps <;> simp only [hevp] at h
        · simp only [Option.pure_def, Option.some_inj] at h
          subst h
          exact ⟨s, hs, fun x hx => Or.inl hx⟩
        · refine ⟨ps.foldl insertSet s, psetUpdate_rget_self _ _ _ _ _ hs h,
            fun x hx => ?_⟩
          rw [mem_foldl_insertSet] at hx
          rcases hx with hx | hx
          · exact Or.inl hx
          · refine Or.inr ⟨ev, rfl, Or.inr ?_⟩
            rw [hevp]
            exact hx
      · rw [if_neg h2] at h
        by_cases h3 : fp.copy_default = true
        · rw [if_pos h3] at h
          simp only [bind, Option.bind_eq_some, Option.pure_def,
            Option.some_inj] at h
          obtain ⟨orig, horig, h⟩ := h
          subst h
          exact ⟨s, by rw [rget_rset_ne _ _ hft]; exact hs, fun x hx => Or.inl hx⟩
        · rw [if_neg h3] at h
          simp only [Option.pure_def, Option.some_inj] at h
          subst h
          exact ⟨s, hs, fun x hx => Or.inl hx⟩

theorem convertStep_rget_property (df : List (String × FieldDefinition))
    (passed : List (String × Val)) (rv : RD) (ft : String) (value0 : Val)
    (rv' : RD)
    (hstep : convertStep df passed rv ft value0 = some rv')
    (hft : ft ≠ "property")
    (hrel : ∀ kvs, dget passed "relevance" = some (.dict kvs) →
      ∀ p ∈ kvs, p.1 ≠ "property")
    (s : List String) (hs : rget rv "property" = some (.pset s)) :
    ∃ s2, rget rv' "property" = some (.pset s2) ∧
      ∀ x ∈ s2, x ∈ s ∨ ∃ fp ev, dlookup df ft = some fp ∧
        fp.extra_values = some ev ∧
        (ev.link_type = some x ∨ x ∈ ev.property.getD []) := by
  rw [convertStep] at hstep
  simp only [bind, Option.bind_eq_some, Option.pure_def, Option.some_inj] at hstep
  obtain ⟨fp, hfp, rvA, hA, fv, hB, rvC, hC, rvD, hD, hfin⟩ := hstep
  subst hfin
  have hsA : rget rvA "property" = some (.pset s) := by
    by_cases hc : ft = "canonical"
    · rw [if_pos hc] at hA
      simp only [bind, Option.bind_eq_some, Option.pure_def, Option.some_inj] at hA
      obtain ⟨c, hcv, hA⟩ := hA
      subst hA
      rw [rget_rset_ne _ _ (by decide)]
      exact hs
    · rw [if_neg hc] at hA
      simp only [Option.pure_def, Option.some_inj] at hA
      subst hA
      exact hs
  have hsB : rget fv.1 "property" = some (.pset s) := by
    by_cases hbool : isBoolVal fp.default_value = true
    · rw [if_pos hbool] at hB
      simp only [bind, Option.bind_eq_some, Option.pure_def, Option.some_inj] at hB
      obtain ⟨inner, hin, hB⟩ := hB
      subst hB
      rw [rget_rset_ne _ _ hft]
      exact hsA
    · rw [if_neg hbool] at hB
      simp only [Option.pure_def, Option.some_inj] at hB
      subst hB
      exact hsA
  obtain ⟨s2, hs2, hmem⟩ :=
    convertBranch_rget_property df passed ft fp fv.1 fv.2 rvC hC hft s hsB
  have hsD : rget rvD "property" = some (.pset s2) := by
    by_cases hrl : ft = "relevance"
    · rw [if_pos hrl] at hD
      subst hrl
      rw [relevanceLift_rget_ne passed "relevance" rvC rvD hD hrel]
      exact hs2
    · rw [if_neg hrl] at hD
      simp only [Option.pure_def, Option.some_inj] at hD
      subst hD
      exact hs2
  refine ⟨s2, hsD, fun x hx => ?_⟩
  rcases hmem x hx with hx0 | ⟨ev, hev, hor⟩
  · exact Or.inl hx0
  · exact Or.inr ⟨fp, ev, hfp, hev, hor⟩

theorem convertLoop_rget_property (df : List (String × FieldDefinition))
    (passed : List (String × Val)) (items : List (String × Val)) :
    ∀ (rv rv2 : RD),
      convertLoop df passed rv items = some rv2 →
      (∀ it ∈ items, it.1 ≠ "property") →
      (∀ kvs, dget passed "relevance" = some (.dict kvs) →
        ∀ p ∈ kvs, p.1 ≠ "property") →
      ∀ s, rget rv "property" = some (.pset s) →
      ∃ s2, rget rv2 "property" = some (.pset s2) ∧
        ∀ x ∈ s2, x ∈ s ∨ ∃ ft fp ev, dlookup df ft = some fp ∧
          fp.extra_values = some ev ∧
          (ev.link_type = some x ∨ x ∈ ev.property.getD []) := by
  induction items with
  | nil =>
    intro rv rv2 h _ _ s hs
    rw [convertLoop] at h
    cases h
    exact ⟨s, hs, fun x hx => Or.inl hx⟩
  | cons it rest ih =>
    obtain ⟨ft, v⟩ := it
    intro rv rv2 h hitems hrel s hs
    rw [convertLoop] at h
    simp only [bind, Option.bind_eq_some] at h
    obtain ⟨rv1, h1, h2⟩ := h
    have hft : ft ≠ "property" := hitems (ft, v) (List.mem_cons_self _ _)
    obtain ⟨s1, hs1, hm1⟩ :=
      convertStep_rget_property df passed rv ft v rv1 h1 hft hrel s hs
    obtain ⟨s2, hs2, hm2⟩ := ih rv1 rv2 h2
      (fun it hit => hitems it (List.mem_cons_of_mem _ hit)) hrel s1 hs1
    refine ⟨s2, hs2, fun x hx => ?_⟩
    rcases hm2 x hx with hx1 | hrest
    · rcases hm1 x hx1 with hx0 | ⟨fp, ev, ha, hb, hc⟩
      · exact Or.inl hx0
      · exact Or.inr ⟨ft, fp, ev, ha, hb, hc⟩
    · exact Or.inr hrest

theorem sortKey_rget_ne (rv rv' : RD) (key : String) {k : String}
    (h : sortKey rv key = some rv') (hk : key ≠ k) :
    rget rv' k = rget rv k := by
  rw [sortKey] at h
  rcases hr : rget rv key with _ | v <;> rw [hr] at h
  · cases h
  · rcases v with v | sl | xs | rs | n | q <;> first
      | (cases h; exact rget_rset_ne _ _ hk)
      | cases h

theorem add_data_summary_rget_ne (rv rv' : RD) {k : String}
    (h : _add_data_summary rv = some rv')
    (h1 : k ≠ "data") (h2 : k ≠ "total_link_counts") :
    rget rv' k = rget rv k := by
  rw [_add_data_summary] at h
  simp only [bind, Option.bind_eq_some, Option.pure_def, Option.some_inj] at h
  obtain ⟨rs, hrs, st, hst, h⟩ := h
  subst h
  rw [rget_rset_ne _ _ (Ne.symm h2), rget_rset_ne _ _ (Ne.symm h1)]

theorem mergeStep_rget_ne (rv rv' : RD) {k : String}
    (h : mergeStep rv = some rv') (hk : k ≠ "data_links_rows") :
    rget rv' k = rget rv k := by
  rw [mergeStep] at h
  simp only [bind, Option.bind_eq_some, Option.pure_def, Option.some_inj] at h
  obtain ⟨rs, hrs, merged, hm, h⟩ := h
  subst h
  rw [rget_rset_ne _ _ (Ne.symm hk)]

theorem ccn_rget_ne (rv rv' : RD) (original : List (String × Val)) {k : String}
    (h : _add_citation_count_norm_field rv original = some rv')
    (hk : k ≠ "citation_count_norm") :
    rget rv' k = rget rv k := by
  rw [_add_citation_count_norm_field] at h
  simp only [bind, Option.bind_eq_some, Option.pure_def, Option.some_inj] at h
  obtain ⟨ac, hac, cc, hcc, h⟩ := h
  subst h
  rw [rget_rset_ne _ _ (Ne.symm hk)]

/-- C7: for every record returned by convert, provided the field table never
lists ARTICLE, NONARTICLE or NOT REFEREED among its extra_values link_type or
property strings, no raw filetype is named property, and the relevance mapping
carries no inner property key (all true of the static table and reader
output), the sorted property list contains NONARTICLE exactly when the raw
nonarticle flag (absent counting as false, one dict layer unwrapped) is
truthy, contains ARTICLE exactly when it is not, and contains NOT REFEREED
exactly when REFEREED is absent. -/
theorem C7_article_refereed_property (df : List (String × FieldDefinition))
    (passed : List (String × Val)) (rv : RD)
    (hconv : _convert df passed = some rv)
    (hdf : ∀ p ∈ df, ∀ ev, p.2.extra_values = some ev →
      (∀ t, ev.link_type = some t →
        t ≠ "ARTICLE" ∧ t ≠ "NONARTICLE" ∧ t ≠ "NOT REFEREED") ∧
      (∀ x ∈ ev.property.getD [],
        x ≠ "ARTICLE" ∧ x ≠ "NONARTICLE" ∧ x ≠ "NOT REFEREED"))
    (hnoft : ∀ it ∈ passed, it.1 ≠ "property")
    (hrel : ∀ kvs, dget passed "relevance" = some (.dict kvs) →
      ∀ p ∈ kvs, p.1 ≠ "property") :
    ∃ props flag,
      rget rv "property" = some (.slist props) ∧
      pyNonarticle passed = some flag ∧
      (("NONARTICLE" ∈ props) ↔ flag = true) ∧
      (("ARTICLE" ∈ props) ↔ flag = false) ∧
      (("NOT REFEREED" ∈ props) ↔ "REFEREED" ∉ props) := by
  obtain ⟨r1, r2, r3, r4, r5, r6, r7, r8, hl, hrefp, hart, hsp, hse, hsum, hmerge,
    hccn, hrv⟩ := convert_inv df passed rv hconv
  obtain ⟨s1, hs1, hm1⟩ := convertLoop_rget_property df passed passed
    [("data_links_rows", .rows []), ("property", .pset []), ("esource", .pset [])]
    r1 hl hnoft hrel [] rfl
  have hbad : ∀ x ∈ s1, x ≠ "ARTICLE" ∧ x ≠ "NONARTICLE" ∧ x ≠ "NOT REFEREED" := by
    intro x hx
    rcases hm1 x hx with hx0 | ⟨ft, fp, ev, hlk, hev, hor⟩
    · cases hx0
    · have hp := hdf (ft, fp) (dlookup_mem df ft fp hlk) ev hev
      rcases hor with hlt | hpx
      · exact hp.1 x hlt
      · exact hp.2 x hpx
  rw [_add_refereed_property, hs1] at hrefp
  have hrefp2 : (if "REFEREED" ∈ s1 then some r1
      else some (rset r1 "property" (RVal.pset (insertSet s1 "NOT REFEREED"))))
      = some r2 := hrefp
  have hstep2 : ∃ s2, rget r2 "property" = some (.pset s2) ∧
      (("REFEREED" ∈ s2) ↔ ("REFEREED" ∈ s1)) ∧
      (("NOT REFEREED" ∈ s2) ↔ ("REFEREED" ∉ s1)) ∧
      ("ARTICLE" ∉ s2) ∧ ("NONARTICLE" ∉ s2) := by
    by_cases hR : "REFEREED" ∈ s1
    · rw [if_pos hR] at hrefp2
      cases hrefp2
      refine ⟨s1, hs1, Iff.rfl, ?_,
        (fun h => (hbad _ h).1 rfl), (fun h => (hbad _ h).2.1 rfl)⟩
      constructor
      · intro h
        exact absurd rfl (hbad _ h).2.2
      · intro h
        exact absurd hR h
    · rw [if_neg hR] at hrefp2
      cases hrefp2
      refine ⟨insertSet s1 "NOT REFEREED", rget_rset_self r1 "property" _,
        ?_, ?_, ?_, ?_⟩
      · rw [mem_insertSet]
        constructor
        · rintro (h | h)
          · exact h
          · exact absurd h (by decide)
        · exact Or.inl
      · rw [mem_insertSet]
        constructor
        · intro _
          exact hR
        · intro _
          exact Or.inr rfl
      · rw [mem_insertSet]
        rintro (h | h)
        · exact (hbad _ h).1 rfl
        · exact absurd h (by decide)
      · rw [mem_insertSet]
        rintro (h | h)
        · exact (hbad _ h).2.1 rfl
        · exact absurd h (by decide)
  obtain ⟨s2, hs2, hRiff, hNRiff, hA2, hNA2⟩ := hstep2
  rw [_add_article_property] at hart
  simp only [bind, Option.bind_eq_some] at hart
  obtain ⟨flag, hflag, hpadd⟩ := hart
  have hs3 := psetAdd_rget_known r2 r3 "property"
    (if flag then "NONARTICLE" else "ARTICLE") s2 hs2 hpadd
  rw [sortKey, hs3] at hsp
  cases hsp
  have e1 : rget rv "property" = rget r8 "property" := by
    rw [hrv]
    exact rget_foldl_rpop not_needed r8 "property" (by decide)
  have e2 := @ccn_rget_ne r7 r8 passed "property" hccn (by decide)
  have e3 := @mergeStep_rget_ne r6 r7 "property" hmerge (by decide)
  have e4 := @add_data_summary_rget_ne r5 r6 "property" hsum (by decide) (by decide)
  have e5 := @sortKey_rget_ne _ r5 "esource" "property" hse (by decide)
  have hprops : rget rv "property" = some (.slist (sortStrings
      (insertSet s2 (if flag then "NONARTICLE" else "ARTICLE")))) := by
    rw [e1, e2, e3, e4, e5]
    exact rget_rset_self r3 "property" _
  have htagNR : (if flag then "NONARTICLE" else "ARTICLE") ≠ "NOT REFEREED" := by
    cases flag <;> decide
  have htagR : (if flag then "NONARTICLE" else "ARTICLE") ≠ "REFEREED" := by
    cases flag <;> decide
  refine ⟨sortStrings (insertSet s2 (if flag then "NONARTICLE" else "ARTICLE")),
    flag, hprops, hflag, ?_, ?_, ?_⟩
  · cases flag
    · constructor
      · intro h
        rw [mem_sortStrings, mem_insertSet] at h
        rcases h with h | h
        · exact absurd h hNA2
        · exact absurd h (by decide)
      · intro h
        cases h
    · constructor
      · intro _
        rfl
      · intro _
        rw [mem_sortStrings, mem_insertSet]
        exact Or.inr rfl
  · cases flag
    · constructor
      · intro _
        rfl
      · intro _
        rw [mem_sortStrings, mem_insertSet]
        exact Or.inr rfl
    · constructor
      · intro h
        rw [mem_sortStrings, mem_insertSet] at h
        rcases h with h | h
        · exact absurd h hA2
        · exact absurd h (by decide)
      · intro h
        cases h
  · simp only [mem_sortStrings, mem_insertSet]
    constructor
    · rintro (h | h)
      · rintro (hc | hc)
        · exact (hNRiff.mp h) (hRiff.mp hc)
        · exact htagR hc.symm
      · exact absurd h.symm htagNR
    · intro h
      refine Or.inl (hNRiff.mpr ?_)
      intro hRs1
      exact h (Or.inl (hRiff.mpr hRs1))

/-- C7, witness: the refereed nonarticle fixture converts, the classification
applies, and the property list is exactly NONARTICLE followed by REFEREED. -/
theorem C7_witness :
    ∃ rv props flag, _convert dfC7 passedC7 = some rv ∧
      rget rv "property" = some (.slist props) ∧
      pyNonarticle passedC7 = some flag ∧
      (("NONARTICLE" ∈ props) ↔ flag = true) ∧
      (("ARTICLE" ∈ props) ↔ flag = false) ∧
      (("NOT REFEREED" ∈ props) ↔ "REFEREED" ∉ props) ∧
      flag = true ∧ props = ["NONARTICLE", "REFEREED"] := by
  have hs : (_convert dfC7 passedC7).isSome = true := rfl
  rcases hc : _convert dfC7 passedC7 with _ | rv
  · rw [hc] at hs
    cases hs
  · obtain ⟨props, flag, hp, hflag, h1, h2, h3⟩ :=
      C7_article_refereed_property dfC7 passedC7 rv hc (by decide) (by decide)
        (fun kvs hkvs => Option.noConfusion hkvs)
    have hfl : pyNonarticle passedC7 = some true := rfl
    rw [hflag] at hfl
    have hflag2 : flag = true := Option.some_inj.mp hfl
    have h10 : (_convert dfC7 passedC7).map (fun rv => rget rv "property")
        = some (some (.slist ["NONARTICLE", "REFEREED"])) := rfl
    rw [hc] at h10
    have hpv : rget rv "property" = some (.slist ["NONARTICLE", "REFEREED"]) :=
      Option.some_inj.mp h10
    rw [hpv] at hp
    have hprops : ["NONARTICLE", "REFEREED"] = props :=
      RVal.slist.inj (Option.some_inj.mp hp)
    exact ⟨rv, props, flag, rfl, hprops ▸ hpv, hflag, h1, h2, h3, hflag2, hprops.symm⟩

theorem refp_rget_ne (rv rv' : RD) {k : String}
    (h : _add_refereed_property rv = some rv') (hk : k ≠ "property") :
    rget rv' k = rget rv k := by
  rw [_add_refereed_property] at h
  rcases hr : rget rv "property" with _ | v <;> rw [hr] at h
  · cases h
  · rcases v with v | s | xs | rs | n | q
    case pset =>
      have h2 : (if "REFEREED" ∈ s then some rv
          else some (rset rv "property" (RVal.pset (insertSet s "NOT REFEREED"))))
          = some rv' := h
      by_cases hR : "REFEREED" ∈ s
      · rw [if_pos hR] at h2
        cases h2
        rfl
      · rw [if_neg hR] at h2
        cases h2
        exact rget_rset_ne _ _ (Ne.symm hk)
    all_goals cases h

theorem artp_rget_ne (rv rv' : RD) (d : List (String × Val)) {k : String}
    (h : _add_article_property rv d = some rv') (hk : k ≠ "property") :
    rget rv' k = rget rv k := by
  rw [_add_article_property] at h
  simp only [bind, Option.bind_eq_some] at h
  obtain ⟨flag, hflag, h⟩ := h
  exact psetAdd_rget_ne _ _ _ _ h hk

theorem dlookup_split {α : Type} (l1 l2 : List (String × α)) (k : String) (v : α)
    (h1 : ∀ it ∈ l1, it.1 ≠ k) :
    dlookup (l1 ++ (k, v) :: l2) k = some v := by
  induction l1 with
  | nil => rw [List.nil_append, dlookup, if_pos rfl]
  | cons it l1 ih =>
    obtain ⟨ka, va⟩ := it
    rw [List.cons_append, dlookup, if_neg (h1 (ka, va) (List.mem_cons_self _ _))]
    exact ih (fun it hit => h1 it (List.mem_cons_of_mem _ hit))

theorem convertLoop_append (df : List (String × FieldDefinition))
    (passed : List (String × Val)) (l1 l2 : List (String × Val)) :
    ∀ rv, convertLoop df passed rv (l1 ++ l2) =
      (convertLoop df passed rv l1).bind
        (fun rv1 => convertLoop df passed rv1 l2) := by
  induction l1 with
  | nil =>
    intro rv
    rw [List.nil_append, convertLoop]
    rfl
  | cons it l1 ih =>
    intro rv
    obtain ⟨ft, v⟩ := it
    rw [List.cons_append, convertLoop, convertLoop]
    rcases hstep : convertStep df passed rv ft v with _ | rv1
    · simp [hstep]
    · simp only [bind, hstep, Option.some_bind]
      exact ih rv1

theorem convertLoop_rget_other (df : List (String × FieldDefinition))
    (passed : List (String × Val)) (items : List (String × Val)) :
    ∀ (rv rv2 : RD) (k : String),
      convertLoop df passed rv items = some rv2 →
      k ≠ "bibcode" → k ≠ "esource" → k ≠ "data_links_rows" → k ≠ "property" →
      (∀ it ∈ items, it.1 ≠ k) →
      (∀ kvs, dget passed "relevance" = some (.dict kvs) →
        ∀ p ∈ kvs, p.1 ≠ k) →
      rget rv2 k = rget rv k := by
  induction items with
  | nil =>
    intro rv rv2 k h _ _ _ _ _ _
    rw [convertLoop] at h
    cases h
    rfl
  | cons it rest ih =>
    obtain ⟨ft, v⟩ := it
    intro rv rv2 k h hb hes hdl hpr hitems hrel
    rw [convertLoop] at h
    simp only [bind, Option.bind_eq_some] at h
    obtain ⟨rv1, h1, h2⟩ := h
    rw [ih rv1 rv2 k h2 hb hes hdl hpr
      (fun it hit => hitems it (List.mem_cons_of_mem _ hit)) hrel]
    exact convertStep_rget_other df passed rv ft v rv1 h1 hb
      (Ne.symm (hitems (ft, v) (List.mem_cons_self _ _))) hes hdl hpr hrel

theorem convertStep_own (df : List (String × FieldDefinition))
    (passed : List (String × Val)) (rv : RD) (ft : String) (value : Val)
    (rv' : RD) (fd : FieldDefinition) (orig : Val)
    (hstep : convertStep df passed rv ft value = some rv')
    (hfd : dlookup df ft = some fd)
    (hev : fd.extra_values = none)
    (hnb : isBoolVal fd.default_value = false)
    (hc : ft ≠ "canonical") (hr : ft ≠ "relevance")
    (horig : dget passed ft = some orig) :
    rget rv' ft = if (!(Val.beq value fd.default_value) || fd.copy_default)
      then some (.raw orig) else rget rv ft := by
  rw [convertStep] at hstep
  simp only [bind, Option.bind_eq_some, Option.pure_def, Option.some_inj] at hstep
  obtain ⟨fp, hfp, rvA, hA, fv, hB, rvC, hC, rvD, hD, hfin⟩ := hstep
  rw [hfd] at hfp
  have hfp2 : fd = fp := Option.some_inj.mp hfp
  subst hfp2
  subst hfin
  rw [if_neg hc] at hA
  simp only [Option.pure_def, Option.some_inj] at hA
  subst hA
  have hnb2 : ¬ (isBoolVal fd.default_value = true) := by
    rw [hnb]
    exact Bool.false_ne_true
  rw [if_neg hnb2] at hB
  simp only [Option.pure_def, Option.some_inj] at hB
  subst hB
  rw [convertBranch] at hC
  simp only [hev] at hC
  rw [if_neg hr] at hD
  simp only [Option.pure_def, Option.some_inj] at hD
  subst hD
  by_cases hcond : (!(Val.beq value fd.default_value) || fd.copy_default) = true
  · rw [if_pos hcond] at hC
    simp only [bind, Option.bind_eq_some, Option.pure_def, Option.some_inj] at hC
    obtain ⟨orig2, horig2, hC⟩ := hC
    rw [horig] at horig2
    have ho2 : orig = orig2 := Option.some_inj.mp horig2
    subst ho2
    subst hC
    rw [if_pos hcond]
    exact rget_rset_self rv ft _
  · rw [if_neg hcond] at hC
    simp only [Option.pure_def, Option.some_inj] at hC
    subst hC
    rw [if_neg hcond]

/-- C3 (amended): the claimed appearance rule holds for the plain pass-through
fields, that is the filetypes whose definition has no extra_values block and a
non-boolean-typed default, that are not among the keys the conversion itself
writes or deletes, and that no relevance inner key shadows: such a key appears
on the converted record exactly when its raw value differs from the default or
copy_default is set, and then with the raw value.  Fields with boolean-typed
defaults are copied unconditionally by the flattening step and fields with an
extra_values block are never copied under their own name, so the claim as
stated fails there (see the counterexample). -/
theorem C3_default_suppression (df : List (String × FieldDefinition))
    (passed : List (String × Val)) (rv : RD) (ft : String) (value : Val)
    (fd : FieldDefinition)
    (hconv : _convert df passed = some rv)
    (hmem : (ft, value) ∈ passed)
    (hnodup : (passed.map Prod.fst).Nodup)
    (hfd : dlookup df ft = some fd)
    (hev : fd.extra_values = none)
    (hnb : isBoolVal fd.default_value = false)
    (hnn : ft ∉ not_needed)
    (hb : ft ≠ "bibcode") (hpr : ft ≠ "property") (hes : ft ≠ "esource")
    (hdl : ft ≠ "data_links_rows") (hda : ft ≠ "data")
    (htl : ft ≠ "total_link_counts") (hcc : ft ≠ "citation_count_norm")
    (hrel : ∀ kvs, dget passed "relevance" = some (.dict kvs) →
      ∀ p ∈ kvs, p.1 ≠ ft) :
    rget rv ft = if (!(Val.beq value fd.default_value) || fd.copy_default)
      then some (.raw value) else none := by
  have hc : ft ≠ "canonical" := by
    intro h
    rw [h] at hnn
    exact hnn (by decide)
  have hr : ft ≠ "relevance" := by
    intro h
    rw [h] at hnn
    exact hnn (by decide)
  obtain ⟨r1, r2, r3, r4, r5, r6, r7, r8, hl, hrefp, hart, hsp, hse, hsum, hmerge,
    hccn, hrv⟩ := convert_inv df passed rv hconv
  obtain ⟨l1, l2, hsplit⟩ := List.append_of_mem hmem
  rw [hsplit, List.map_append, List.map_cons, List.nodup_append] at hnodup
  obtain ⟨hn1, hn2, hdisj⟩ := hnodup
  have hl1 : ∀ it ∈ l1, it.1 ≠ ft := by
    intro it hit h
    exact hdisj (List.mem_map.mpr ⟨it, hit, h⟩) (List.mem_cons_self _ _)
  have hl2k : ∀ it ∈ l2, it.1 ≠ ft := by
    intro it hit h
    exact (List.nodup_cons.mp hn2).1 (List.mem_map.mpr ⟨it, hit, h⟩)
  have horig : dget passed ft = some value := by
    rw [hsplit]
    exact dlookup_split l1 l2 ft value hl1
  have hl2 : convertLoop df passed
      [("data_links_rows", .rows []), ("property", .pset []), ("esource", .pset [])]
      (l1 ++ (ft, value) :: l2) = some r1 := by
    rw [← hsplit]
    exact hl
  rw [convertLoop_append] at hl2
  simp only [Option.bind_eq_some] at hl2
  obtain ⟨ra, hra, hrest⟩ := hl2
  rw [convertLoop] at hrest
  simp only [bind, Option.bind_eq_some] at hrest
  obtain ⟨rb, hstep, hloop2⟩ := hrest
  have hstart : rget ([("data_links_rows", RVal.rows []), ("property", RVal.pset []),
      ("esource", RVal.pset [])] : RD) ft = none := by
    rw [rget, dlookup, if_neg (Ne.symm hdl), dlookup, if_neg (Ne.symm hpr),
      dlookup, if_neg (Ne.symm hes), dlookup]
  have hfta : rget ra ft = none := by
    rw [convertLoop_rget_other df passed l1 _ ra ft hra hb hes hdl hpr hl1 hrel]
    exact hstart
  have hftb := convertStep_own df passed ra ft value rb fd value hstep hfd hev hnb
    hc hr horig
  have hft1 : rget r1 ft = rget rb ft :=
    convertLoop_rget_other df passed l2 rb r1 ft hloop2 hb hes hdl hpr hl2k hrel
  have p1 := refp_rget_ne r1 r2 hrefp hpr
  have p2 := artp_rget_ne r2 r3 passed hart hpr
  have p3 := @sortKey_rget_ne r3 r4 "property" ft hsp (Ne.symm hpr)
  have p4 := @sortKey_rget_ne r4 r5 "esource" ft hse (Ne.symm hes)
  have p5 := @add_data_summary_rget_ne r5 r6 ft hsum hda htl
  have p6 := @mergeStep_rget_ne r6 r7 ft hmerge hdl
  have p7 := @ccn_rget_ne r7 r8 passed ft hccn hcc
  have p0 : rget rv ft = rget r8 ft := by
    rw [hrv]
    exact rget_foldl_rpop not_needed r8 ft hnn
  rw [p0, p7, p6, p5, p4, p3, p2, p1, hft1, hftb]
  by_cases hcond : (!(Val.beq value fd.default_value) || fd.copy_default) = true
  · rw [if_pos hcond, if_pos hcond]
  · rw [if_neg hcond, if_neg hcond]
    exact hfta

/-- C3, witness: a non-default bibgroup list passes through to the record
under its own key with the raw value. -/
theorem C3_witness :
    ∃ rv, _convert dfC3w passedC3w = some rv ∧
      rget rv "bibgroup" = some (.raw (.list [.str "CfA"])) := by
  have hs : (_convert dfC3w passedC3w).isSome = true := rfl
  rcases hc : _convert dfC3w passedC3w with _ | rv
  · rw [hc] at hs
    cases hs
  · have h := C3_default_suppression dfC3w passedC3w rv "bibgroup"
      (.list [.str "CfA"]) ⟨.list [], none, false⟩ hc
      (List.mem_cons_self _ _) (by decide) rfl rfl rfl (by decide)
      (by decide) (by decide) (by decide) (by decide) (by decide) (by decide)
      (by decide) (fun kvs hkvs => Option.noConfusion hkvs)
    refine ⟨rv, rfl, ?_⟩
    rw [h]
    rfl
